import Mathlib

/-!
Verification development for the AllCare / Always active-learning backend.

The definitions below are a shallow embedding of the Python sources:
  - backserver/model_registry.py   (model catalog, promotion, rollback)
  - backserver/auto_promote.py     (metric comparison and auto promotion)
  - backserver/labels_pool.py      (latest-wins label records)
  - backserver/back.py             (per-user case ledger and case-id counter)
  - backserver/AL.py               (margin-based uncertainty sampling)

Python dicts are modelled as association lists with insertion-order update
semantics, floats as rationals, the file system as the list of existing
paths, and timestamps are threaded as explicit string parameters.
-/

namespace AllCare

/-- Python dict lookup: first binding for a key, if any. -/
def dictGet {α : Type} (m : List (String × α)) (k : String) : Option α :=
  (m.find? (fun p => p.1 == k)).map Prod.snd

/-- Python dict assignment: update the binding in place when the key exists,
otherwise append a new binding at the end (insertion order). -/
def dictSet {α : Type} (m : List (String × α)) (k : String) (v : α) :
    List (String × α) :=
  match m with
  | [] => [(k, v)]
  | (k0, v0) :: rest =>
      if k0 == k then (k0, v) :: rest else (k0, v0) :: dictSet rest k v

/-- Python `k in d` membership test on a dict. -/
def dictContains {α : Type} (m : List (String × α)) (k : String) : Bool :=
  (dictGet m k).isSome

/-- Python `del d[k]`: remove the binding for a key. -/
def dictDel {α : Type} (m : List (String × α)) (k : String) : List (String × α) :=
  m.filter (fun p => p.1 != k)

/-- Stable insertion of an element into a list sorted by `le`; used to model
the stability guarantee of the Python `sorted` builtin. -/
def insertSorted {α : Type} (le : α → α → Bool) (x : α) : List α → List α
  | [] => [x]
  | y :: ys => if le x y then x :: y :: ys else y :: insertSorted le x ys

/-- Stable sort (model of the Python `sorted` builtin, which is stable). -/
def stableSort {α : Type} (le : α → α → Bool) : List α → List α
  | [] => []
  | x :: xs => insertSorted le x (stableSort le xs)

/-- Python `os.path.join` for two components (posix separator). -/
def pathJoin (a b : String) : String := a ++ "/" ++ b

/-- Python `os.path.basename`: the part after the last separator. -/
def basename (p : String) : String := (p.splitOn "/").getLastD ""

/-- Python substring containment `sub in s` for a non-empty needle. -/
def strContains (s sub : String) : Bool := (s.splitOn sub).length ≥ 2

/-- Python `str.isdigit` on ASCII content: non-empty and all digits. -/
def pyIsDigit (s : String) : Bool := s ≠ "" && s.toList.all Char.isDigit

/-! ## Configuration constants (config.py defaults) -/

def CASE_ID_START : Int := 10000

def CASE_ID_MAX_DIGITS : Nat := 6

def AL_WORKSPACE_ROOT : String := "AL_Back"

def AL_MODELS_DIR : String := pathJoin AL_WORKSPACE_ROOT "models"

def AL_PRODUCTION_DIR : String := pathJoin AL_MODELS_DIR "production"

def AL_ARCHIVE_DIR : String := pathJoin AL_MODELS_DIR "archive"

/-! ## File system model

Only existence of paths is observable by the embedded code, so the file
system is the list of paths that exist.  `shutil.move` removes the source
and creates the destination; `shutil.copy` creates the destination and
keeps the source. -/

abbrev FS := List String

def fsExists (fs : FS) (p : String) : Bool := fs.contains p

def fsRemove (fs : FS) (p : String) : FS := fs.filter (fun q => q != p)

def fsAdd (fs : FS) (p : String) : FS := fs ++ [p]

def fsMove (fs : FS) (src dst : String) : FS := fsAdd (fsRemove fs src) dst

def fsCopy (fs : FS) (_src dst : String) : FS := fsAdd fs dst

/-! ## Model registry (model_registry.py)

A registry entry.  Metric values are floats in the source, modelled as
rationals.  The `production_path` key is absent until promotion first
copies the file, hence the `Option`. -/

structure ModelEntry where
  status : String
  created_at : String
  base_model : Option String
  training_config : List (String × String)
  metrics : List (String × ℚ)
  path : String
  production_path : Option String := none
  deriving DecidableEq, Repr, Inhabited

/-- Registry document: `models`, the `current_production` pointer, the
`pending_promotion` and `active_inference` slots. -/
structure Registry where
  models : List (String × ModelEntry)
  current_production : Option String
  pending_promotion : Option String
  active_inference : Option (String × String)
  deriving DecidableEq, Repr, Inhabited

/-- Fresh registry as produced by `_load_registry` when no file exists. -/
def initRegistry : Registry :=
  { models := [], current_production := none
    pending_promotion := none, active_inference := none }

namespace ModelStatus

def TRAINING : String := "training"

def EVALUATING : String := "evaluating"

def PRODUCTION : String := "production"

def ARCHIVED : String := "archived"

def FAILED : String := "failed"

end ModelStatus

/-- register_model: create a registry entry (metrics start empty) and store
it under `version_id`.  `now` stands for `datetime.now().isoformat()`. -/
def register_model (reg : Registry) (version_id : String)
    (base_model : Option String) (training_config : List (String × String))
    (path : String) (now : String)
    (status : String := ModelStatus.TRAINING) : Registry × ModelEntry :=
  let entry : ModelEntry :=
    { status := status, created_at := now, base_model := base_model
      training_config := training_config, metrics := [], path := path }
  ({ reg with models := dictSet reg.models version_id entry }, entry)

/-- update_model_status: set the status of a model; `false` when the
version is unknown (registry left unchanged). -/
def update_model_status (reg : Registry) (version_id status : String) :
    Registry × Bool :=
  match dictGet reg.models version_id with
  | none => (reg, false)
  | some entry =>
      ({ reg with models := dictSet reg.models version_id { entry with status := status } },
       true)

/-- update_model_metrics: replace the metrics map of a model. -/
def update_model_metrics (reg : Registry) (version_id : String)
    (metrics : List (String × ℚ)) : Registry × Bool :=
  match dictGet reg.models version_id with
  | none => (reg, false)
  | some entry =>
      ({ reg with models := dictSet reg.models version_id { entry with metrics := metrics } },
       true)

/-- get_production_model: entry of `current_production` together with its
version id; `none` when the pointer is null, empty, or dangling.  The
Python truthiness test `if not prod_id` makes the empty string behave like
null. -/
def get_production_model (reg : Registry) : Option (String × ModelEntry) :=
  match reg.current_production with
  | none => none
  | some prod_id =>
      if prod_id = "" then none
      else match dictGet reg.models prod_id with
        | none => none
        | some entry => some (prod_id, entry)

/-- get_model: entry by version id (paired with the id as in the source,
which adds a `version_id` key to a copy). -/
def get_model (reg : Registry) (version_id : String) :
    Option (String × ModelEntry) :=
  (dictGet reg.models version_id).map (fun e => (version_id, e))

/-- get_model_metrics: metrics map of a version, when registered. -/
def get_model_metrics (reg : Registry) (version_id : String) :
    Option (List (String × ℚ)) :=
  (get_model reg version_id).map (fun m => m.2.metrics)

/-- First block of `promote_model`: archive the current production entry,
moving its file into `archive/<old>/<basename>` when that file exists and
updating its recorded path.  Skipped for a null, empty or dangling
pointer. -/
def archiveCurrentProduction (reg : Registry) (fs : FS) : Registry × FS :=
  match reg.current_production with
  | none => (reg, fs)
  | some old_prod =>
      if old_prod ≠ "" then
        match dictGet reg.models old_prod with
        | none => (reg, fs)
        | some old_entry =>
            let old_entry := { old_entry with status := ModelStatus.ARCHIVED }
            let old_path := old_entry.path
            if fsExists fs old_path then
              let archive_path :=
                pathJoin (pathJoin AL_ARCHIVE_DIR old_prod) (basename old_path)
              let fs := fsMove fs old_path archive_path
              let old_entry := { old_entry with path := archive_path }
              ({ reg with models := dictSet reg.models old_prod old_entry }, fs)
            else
              ({ reg with models := dictSet reg.models old_prod old_entry }, fs)
      else (reg, fs)

/-- promote_model: archive the current production entry (through
`archiveCurrentProduction`), then mark the target as production, point
`current_production` at it, and copy its file to `production/model.pt`
when it exists outside the production directory.  Returns the success flag
together with the new registry and file system. -/
def promote_model (reg : Registry) (fs : FS) (version_id : String) :
    Bool × Registry × FS :=
  if ¬ dictContains reg.models version_id then (false, reg, fs)
  else
    -- Archive current production model (skipped for a null/empty/dangling pointer).
    let step1 : Registry × FS := archiveCurrentProduction reg fs
    let reg := step1.1
    let fs := step1.2
    -- Promote new model.
    match dictGet reg.models version_id with
    | none => (false, reg, fs)
    | some entry =>
        let entry := { entry with status := ModelStatus.PRODUCTION }
        let reg :=
          { reg with models := dictSet reg.models version_id entry
                     current_production := some version_id }
        let current_path := entry.path
        if fsExists fs current_path && !strContains current_path AL_PRODUCTION_DIR then
          let prod_path := pathJoin AL_PRODUCTION_DIR "model.pt"
          let fs := fsCopy fs current_path prod_path
          let entry := { entry with production_path := some prod_path }
          (true, { reg with models := dictSet reg.models version_id entry }, fs)
        else (true, reg, fs)

/-- rollback_to: promote a version again, accepted only from the
`archived` or `production` status. -/
def rollback_to (reg : Registry) (fs : FS) (version_id : String) :
    Bool × Registry × FS :=
  match dictGet reg.models version_id with
  | none => (false, reg, fs)
  | some entry =>
      if entry.status = ModelStatus.ARCHIVED ∨ entry.status = ModelStatus.PRODUCTION then
        promote_model reg fs version_id
      else (false, reg, fs)

/-- delete_model: remove a version and its file; refuses for unknown
versions and for the current production model. -/
def delete_model (reg : Registry) (fs : FS) (version_id : String) :
    Bool × Registry × FS :=
  if ¬ dictContains reg.models version_id then (false, reg, fs)
  else if reg.current_production = some version_id then (false, reg, fs)
  else
    let fs :=
      match dictGet reg.models version_id with
      | some entry =>
          -- Python: `if model_path and os.path.exists(model_path)`.
          if entry.path ≠ "" && fsExists fs entry.path then fsRemove fs entry.path else fs
      | none => fs
    (true, { reg with models := dictDel reg.models version_id }, fs)

/-! ## Registry operation sequences (for the production-pointer invariant) -/

/-- One registry operation, as named by the specification: registration,
status update, promotion, rollback, deletion. -/
inductive RegOp where
  | register (version_id : String) (base_model : Option String)
      (training_config : List (String × String)) (path now status : String)
  | updateStatus (version_id status : String)
  | promote (version_id : String)
  | rollback (version_id : String)
  | delete (version_id : String)
  deriving DecidableEq, Repr

/-- Apply one registry operation to the registry and file system. -/
def regStep (s : Registry × FS) (op : RegOp) : Registry × FS :=
  match op with
  | .register vid base cfg path now status =>
      ((register_model s.1 vid base cfg path now status).1, s.2)
  | .updateStatus vid status => ((update_model_status s.1 vid status).1, s.2)
  | .promote vid => (promote_model s.1 s.2 vid).2
  | .rollback vid => (rollback_to s.1 s.2 vid).2
  | .delete vid => (delete_model s.1 s.2 vid).2

/-- Apply a sequence of registry operations. -/
def regRun (s : Registry × FS) (ops : List RegOp) : Registry × FS :=
  ops.foldl regStep s

/-- Number of registered versions whose status is `production`. -/
def prodCount (reg : Registry) : Nat :=
  (reg.models.filter (fun p => p.2.status == ModelStatus.PRODUCTION)).length

/-- The claimed registry invariant: at most one production version, exactly
one precisely when `current_production` is non-null, and the pointed-to
version is the production one. -/
def registryInvariant (reg : Registry) : Prop :=
  prodCount reg ≤ 1 ∧
  (prodCount reg = 1 ↔ reg.current_production ≠ none) ∧
  (∀ v, reg.current_production = some v →
     ∃ e, dictGet reg.models v = some e ∧ e.status = ModelStatus.PRODUCTION)

/-- Guard under which the invariant is actually maintained: `register_model`
and `update_model_status` never write the `production` status themselves,
never target the version `current_production` points at, and no model is
registered under the empty version id. -/
def safeOp (reg : Registry) : RegOp → Bool
  | .register vid _ _ _ _ status =>
      status != ModelStatus.PRODUCTION && reg.current_production != some vid && vid != ""
  | .updateStatus vid status =>
      status != ModelStatus.PRODUCTION && reg.current_production != some vid
  | _ => true

/-- Every operation of the sequence is guarded in the state it runs in. -/
def safeRun (s : Registry × FS) : List RegOp → Bool
  | [] => true
  | op :: ops => safeOp s.1 op && safeRun (regStep s op) ops

/-- Status discipline relative to the production pointer: with a null
pointer no version is in production; with pointer `v` the version `v` is in
production and nothing else is. -/
def goodModels (models : List (String × ModelEntry)) : Option String → Prop
  | none => ∀ p ∈ models, p.2.status ≠ ModelStatus.PRODUCTION
  | some v =>
      v ≠ "" ∧
      (∃ e, dictGet models v = some e ∧ e.status = ModelStatus.PRODUCTION) ∧
      ∀ p ∈ models, p.1 ≠ v → p.2.status ≠ ModelStatus.PRODUCTION

/-- Structural form of the invariant used for the induction: the key list is
duplicate-free, the empty version id is never registered, and the
production statuses match the pointer. -/
def goodRegistry (reg : Registry) : Prop :=
  (reg.models.map Prod.fst).Nodup ∧
  dictContains reg.models "" = false ∧
  goodModels reg.models reg.current_production

/-! ## Auto-promotion (auto_promote.py) -/

/-- get_production_metrics: metrics of the current production model, when
one exists. -/
def get_production_metrics (reg : Registry) : Option (List (String × ℚ)) :=
  (get_production_model reg).map (fun m => m.2.metrics)

/-- get_candidate_metrics: metrics of a candidate, when registered. -/
def get_candidate_metrics (reg : Registry) (version_id : String) :
    Option (List (String × ℚ)) :=
  get_model_metrics reg version_id

/-- compare_models: `(should_promote, candidate_value, production_value)`.
A missing or empty candidate metrics map is falsy in Python and yields
`(false, 0, 0)`; a missing or empty production metrics map is likewise
falsy and makes the candidate promotable; a missing metric key defaults to
`0.0`; otherwise promote when the candidate value is strictly greater than
the production value plus the threshold. -/
def compare_models (reg : Registry) (candidate_id : String)
    (metric_key : String := "val_accuracy") (threshold : ℚ := 0) :
    Bool × ℚ × ℚ :=
  let candidate_metrics := get_candidate_metrics reg candidate_id
  let production_metrics := get_production_metrics reg
  match candidate_metrics with
  | none => (false, 0, 0)
  | some cm =>
      if cm = [] then (false, 0, 0)
      else
        let candidate_value := (dictGet cm metric_key).getD 0
        match production_metrics with
        | none => (true, candidate_value, 0)
        | some pm =>
            if pm = [] then (true, candidate_value, 0)
            else
              let production_value := (dictGet pm metric_key).getD 0
              (candidate_value > production_value + threshold,
               candidate_value, production_value)

/-- Result dict of `evaluate_and_promote`.  Keys that are only present on
some paths are wrapped in `Option`; `previous_production` is doubly
optional because the key itself is conditional and its value may be null. -/
structure EvalResult where
  success : Bool
  error : Option String := none
  version_id : Option String := none
  candidate_value : ℚ := 0
  production_value : ℚ := 0
  metric : Option String := none
  improvement : ℚ := 0
  meets_threshold : Bool := false
  promoted : Bool
  previous_production : Option (Option String) := none
  reason : Option String := none
  deriving DecidableEq, Repr

/-- evaluate_and_promote: compare a candidate against production and, when
it wins and `auto_promote` is set, promote it; when it loses, archive it
with a reason.  The event-log append performed by the source on promotion
is elided here: it touches neither the registry nor the model files. -/
def evaluate_and_promote (reg : Registry) (fs : FS) (version_id : String)
    (metric_key : String := "val_accuracy") (min_improvement : ℚ := 0)
    (auto_promote : Bool := true) : EvalResult × Registry × FS :=
  match get_model reg version_id with
  | none =>
      ({ success := false
         error := some ("Model " ++ version_id ++ " not found")
         promoted := false }, reg, fs)
  | some _candidate =>
      let c := compare_models reg version_id metric_key min_improvement
      let should_promote := c.1
      let candidate_val := c.2.1
      let production_val := c.2.2
      let result : EvalResult :=
        { success := true, version_id := some version_id
          candidate_value := candidate_val, production_value := production_val
          metric := some metric_key, improvement := candidate_val - production_val
          meets_threshold := should_promote, promoted := false }
      if should_promote && auto_promote then
        let old_version := (get_production_model reg).map Prod.fst
        let pr := promote_model reg fs version_id
        if pr.1 then
          ({ result with promoted := true, previous_production := some old_version },
           pr.2.1, pr.2.2)
        else
          ({ result with error := some "Promotion failed", success := false },
           pr.2.1, pr.2.2)
      else if !should_promote then
        let u := update_model_status reg version_id ModelStatus.ARCHIVED
        let msg := "Candidate (" ++ toString candidate_val ++
          ") did not improve over production (" ++ toString production_val ++
          ") by required threshold (" ++ toString min_improvement ++ ")"
        ({ result with reason := some msg }, u.1, fs)
      else (result, reg, fs)

/-! ## Labels pool (labels_pool.py) -/

/-- A label record of the pool.  In the source these are JSON objects; this
embedding fixes the shape the module itself writes. -/
structure LabelRecord where
  case_id : String
  image_paths : List String
  correct_label : String
  user_id : String
  created_at : String
  updated_at : String
  used_in_models : List String
  image_retrain_history : List (String × List String)
  deriving DecidableEq, Repr

/-- Ensure the retrain history has one binding per image path, seeding
missing paths with the empty list (the isinstance filters of the source are
identities under this typed shape). -/
def normalizeImageRetrainHistory (rec : LabelRecord) : List (String × List String) :=
  rec.image_paths.foldl
    (fun acc p => if dictContains acc p then acc else acc ++ [(p, [])])
    rec.image_retrain_history

/-- Replace the first list element satisfying the predicate. -/
def replaceFirst {α : Type} (p : α → Bool) (x : α) : List α → List α
  | [] => []
  | y :: ys => if p y then x :: ys else y :: replaceFirst p x ys

/-- add_label: latest-wins upsert keyed by case id.  A fresh record seeds
`created_at`, an empty used list and an empty history per image path; a
re-submit preserves `created_at`, `used_in_models` and the (normalized)
history of the existing record and overwrites everything else. -/
def add_label (labels : List LabelRecord) (case_id : String)
    (image_paths : List String) (correct_label : String) (user_id : String)
    (now : String) : LabelRecord × List LabelRecord :=
  let existing := labels.find? (fun l => l.case_id == case_id)
  let label_entry : LabelRecord :=
    { case_id := case_id
      image_paths := image_paths
      correct_label := correct_label
      user_id := user_id
      created_at := match existing with
        | none => now
        | some old => old.created_at
      updated_at := now
      used_in_models := match existing with
        | none => []
        | some old => old.used_in_models
      image_retrain_history := match existing with
        | none => image_paths.foldl (fun acc p => dictSet acc p []) []
        | some old => normalizeImageRetrainHistory old }
  match existing with
  | some _ => (label_entry, replaceFirst (fun l => l.case_id == case_id) label_entry labels)
  | none => (label_entry, labels ++ [label_entry])

/-- The record `add_label` writes for a previously unseen case id. -/
def freshLabel (case_id : String) (image_paths : List String)
    (correct_label user_id now : String) : LabelRecord :=
  { case_id := case_id, image_paths := image_paths
    correct_label := correct_label, user_id := user_id
    created_at := now, updated_at := now, used_in_models := []
    image_retrain_history := image_paths.foldl (fun acc p => dictSet acc p []) [] }

/-- The record `add_label` writes over an existing record: latest wins for
the data fields, `created_at` and the used tracking are preserved. -/
def updatedLabel (case_id : String) (image_paths : List String)
    (correct_label user_id now : String) (old : LabelRecord) : LabelRecord :=
  { case_id := case_id, image_paths := image_paths
    correct_label := correct_label, user_id := user_id
    created_at := old.created_at, updated_at := now
    used_in_models := old.used_in_models
    image_retrain_history := normalizeImageRetrainHistory old }

/-- get_label_by_case: first record with the case id, if any. -/
def get_label_by_case (labels : List LabelRecord) (case_id : String) :
    Option LabelRecord :=
  labels.find? (fun l => l.case_id == case_id)

/-- One iteration of the per-image loop of `mark_labels_used`: fetch (or
seed) the list of the image path and append the version when absent. -/
def markStep (version_id : String) (acc : List (String × List String))
    (p : String) : List (String × List String) :=
  let cur := (dictGet acc p).getD []
  let cur := if cur.contains version_id then cur else cur ++ [version_id]
  dictSet acc p cur

/-- The per-image loop of `mark_labels_used` over all image paths. -/
def foldMark (version_id : String) (h : List (String × List String))
    (l : List String) : List (String × List String) :=
  l.foldl (markStep version_id) h

/-- Per-record effect of `mark_labels_used` on a matched record: append the
version to the used list when absent, then append it to each image path
entry of the normalized history when absent. -/
def markRecordUsed (version_id : String) (rec : LabelRecord) : LabelRecord :=
  let used :=
    if rec.used_in_models.contains version_id then rec.used_in_models
    else rec.used_in_models ++ [version_id]
  { rec with
      used_in_models := used
      image_retrain_history :=
        foldMark version_id (normalizeImageRetrainHistory rec) rec.image_paths }

/-- Per-record function applied by `mark_labels_used` when a single case id
is targeted. -/
def markPoolFn (version_id c : String) (rec : LabelRecord) : LabelRecord :=
  if [c].contains rec.case_id = true then markRecordUsed version_id rec else rec

/-- mark_labels_used: mark every record (or those of the given case ids) as
used by a model version; returns the new pool and the number of records
whose used list grew. -/
def mark_labels_used (labels : List LabelRecord) (version_id : String)
    (case_ids : Option (List String)) : List LabelRecord × Nat :=
  let matched := fun (rec : LabelRecord) =>
    match case_ids with
    | none => true
    | some l => l.contains rec.case_id
  (labels.map (fun rec => if matched rec then markRecordUsed version_id rec else rec),
   (labels.filter (fun rec =>
      matched rec && !(rec.used_in_models.contains version_id))).length)

/-! ## Per-user case ledger and case-id counter (back.py)

A ledger entry models the JSON objects of `metadata.jsonl`.  Fields that
none of the embedded operations read or write (predictions, blur_score,
device, annotation payloads, ...) are carried by the records untouched and
are elided from the structure. -/

structure CaseEntry where
  case_id : Option String
  entry_type : Option String := none
  image_id : Option String := none
  status : Option String := none
  user_id : Option String := none
  user_role : Option String := none
  created_at : Option String := none
  gender : Option String := none
  age : Option String := none
  location : Option String := none
  symptoms : List String := []
  notes : Option String := none
  case_status : Option String := none
  case_entry_type : Option String := none
  case_updated_at : Option String := none
  image_ids : Option (List String) := none
  image_paths : List String := []
  deriving DecidableEq, Repr

/-- Python truthiness of an optional string. -/
def optTruthy (o : Option String) : Bool :=
  match o with
  | some s => s ≠ ""
  | none => false

/-- Per-user mutable state: the case counter file (if present and parseable)
and the metadata ledger. -/
structure UserState where
  counter : Option Int
  ledger : List CaseEntry
  deriving DecidableEq, Repr

/-- max_case_id_from_user_metadata: the largest numeric case id of the
ledger among digit-only ids of at most six digits that are at least
`CASE_ID_START`. -/
def maxCaseIdFromUserMetadata (entries : List CaseEntry) : Option Nat :=
  entries.foldl
    (fun acc e =>
      match e.case_id with
      | some cid =>
          if pyIsDigit cid && cid.length ≤ CASE_ID_MAX_DIGITS then
            match cid.toNat? with
            | some value =>
                if (value : Int) < CASE_ID_START then acc
                else match acc with
                  | none => some value
                  | some m => if value > m then some value else some m
            | none => acc
          else acc
      | none => acc)
    none

/-- next_case_id_for_user: read the counter, recover it from the ledger if
missing, step to `max(last+1, CASE_ID_START)`, persist, return it as a
string. -/
def nextCaseIdForUser (st : UserState) : String × UserState :=
  let last_id : Int :=
    match st.counter with
    | some n => n
    | none =>
        match maxCaseIdFromUserMetadata st.ledger with
        | some m => (m : Int)
        | none => CASE_ID_START - 1
  let next_id := max (last_id + 1) CASE_ID_START
  (toString next_id, { st with counter := some next_id })

/-- Outcome of `POST /cases/release-id`: HTTP 400 for a non-numeric id,
otherwise a skip-with-reason or success payload. -/
inductive ReleaseResult where
  | badRequest
  | skipped (reason : String) (last_case_id : Option String)
  | ok (case_id : String)
  deriving DecidableEq, Repr

/-- release_case_id: decrement the counter (never below
`CASE_ID_START - 1`) when the released id equals the counter and no ledger
entry references it; otherwise report a reason and change nothing. -/
def release_case_id (st : UserState) (raw : String) : ReleaseResult × UserState :=
  let case_id := raw.trim
  if case_id = "" || ¬ pyIsDigit case_id then (.badRequest, st)
  else
    match st.counter with
    | none => (.skipped "missing_counter" none, st)
    | some last_id =>
        if toString last_id ≠ case_id then
          (.skipped "counter_mismatch" (some (toString last_id)), st)
        else if st.ledger.any (fun e => e.case_id == some case_id) then
          (.skipped "case_in_use" none, st)
        else
          let next_last_id := max (last_id - 1) (CASE_ID_START - 1)
          (.ok case_id, { st with counter := some next_last_id })

/-- case_metadata_keys plus the fixed fields of
`_apply_case_summary_to_image`: denormalize the incoming summary onto an
image entry.  Patient-context keys are copied only when truthy (not null,
not empty). -/
def applyCaseSummaryToImage (img : CaseEntry) (case_entry : CaseEntry) : CaseEntry :=
  { img with
    case_status := case_entry.status
    case_entry_type := case_entry.entry_type
    case_updated_at := case_entry.created_at
    user_id := if optTruthy case_entry.user_id then case_entry.user_id else img.user_id
    user_role := if optTruthy case_entry.user_role then case_entry.user_role else img.user_role
    gender := if optTruthy case_entry.gender then case_entry.gender else img.gender
    age := if optTruthy case_entry.age then case_entry.age else img.age
    location := if optTruthy case_entry.location then case_entry.location else img.location
    symptoms := if case_entry.symptoms ≠ [] then case_entry.symptoms else img.symptoms
    notes := if optTruthy case_entry.notes then case_entry.notes else img.notes }

/-- Entry types that act as the case summary. -/
def isSummaryType (t : Option String) : Bool :=
  match t with
  | some s => s = "case" || s = "uncertain" || s = "reject"
  | none => false

/-- The rewrite loop of `_log_case_entry`: drop previous summaries of the
case, denormalize the new summary onto its image entries, keep everything
else verbatim. -/
def upsertPass (case_id : String) (newEntry : CaseEntry) :
    List CaseEntry → List CaseEntry
  | [] => []
  | e :: rest =>
      if e.case_id == some case_id then
        if isSummaryType e.entry_type then upsertPass case_id newEntry rest
        else if optTruthy e.image_id then
          applyCaseSummaryToImage e newEntry :: upsertPass case_id newEntry rest
        else e :: upsertPass case_id newEntry rest
      else e :: upsertPass case_id newEntry rest

/-- collect_image_ids: sorted set of image ids carried by entries of the
case. -/
def collectImageIds (entries : List CaseEntry) (case_id : String) : List String :=
  let ids := entries.filterMap
    (fun e => if e.case_id == some case_id then e.image_id else none)
  stableSort (fun a b => decide (a ≤ b)) ids.dedup

/-- Case-id resolution of `_log_case_entry`: allocate a fresh id when the
payload carries none or a blank one. -/
def allocCaseId (st : UserState) (payload : CaseEntry) : String × UserState :=
  match payload.case_id with
  | none => nextCaseIdForUser st
  | some cid => if cid.trim = "" then nextCaseIdForUser st else (cid, st)

/-- The summary entry `_log_case_entry` builds from the payload before the
ledger rewrite: entry type fixed, status and timestamps defaulted, user
identity attached. -/
def summaryEntry (payload : CaseEntry)
    (case_id entry_type default_status user_id user_role now : String) : CaseEntry :=
  { payload with
    case_id := some case_id
    entry_type := some entry_type
    status := some (match payload.status with
      | some s => if s = "" then default_status else s
      | none => default_status)
    user_id := some user_id
    user_role := if user_role ≠ "" then some user_role else payload.user_role
    created_at := match payload.created_at with
      | some s => if s = "" then some now else some s
      | none => some now }

/-- log_case_entry: allocate a case id when the payload has none, default
the status and timestamps, rewrite the ledger through `upsertPass`, attach
the surviving image ids and derived image paths, and append the new
summary. -/
def logCaseEntry (st : UserState) (payload : CaseEntry)
    (entry_type default_status user_id user_role : String) (now : String) :
    CaseEntry × UserState :=
  let idAlloc := allocCaseId st payload
  let case_id := idAlloc.1
  let st := idAlloc.2
  let entry := summaryEntry payload case_id entry_type default_status user_id user_role now
  let processed := upsertPass case_id entry st.ledger
  let image_ids := collectImageIds processed case_id
  let entry :=
    if image_ids ≠ [] then
      { entry with
        image_ids := some image_ids
        image_paths := image_ids.map (fun img => user_id ++ "/" ++ img ++ ".jpg") }
    else entry
  (entry, { st with ledger := processed ++ [entry] })

/-- One summary upsert request (close / uncertain / reject post). -/
structure UpsertOp where
  payload : CaseEntry
  entry_type : String
  default_status : String
  user_role : String
  now : String
  deriving Repr

/-- Apply a sequence of summary upserts for one user. -/
def runUpserts (user_id : String) (st : UserState) (ops : List UpsertOp) : UserState :=
  ops.foldl
    (fun st op =>
      (logCaseEntry st op.payload op.entry_type op.default_status user_id op.user_role op.now).2)
    st

/-- An entry is the summary of the given case. -/
def summaryFor (case_id : String) (e : CaseEntry) : Bool :=
  e.case_id == some case_id && isSummaryType e.entry_type

/-- Number of summary entries of a case in a ledger. -/
def countSummaries (case_id : String) (ledger : List CaseEntry) : Nat :=
  (ledger.filter (summaryFor case_id)).length

/-! ## Uncertainty sampling (AL.py)

The source keeps the top-k candidates in a `heapq` min-heap of
`(margin, idx, case)` tuples; the heap is modelled by the exact CPython
array algorithm (`_siftdown` / `_siftup`).  Tuple comparison never reaches
the third component because the indices are distinct. -/

structure Prediction where
  label : String
  confidence : ℚ
  deriving DecidableEq, Repr, Inhabited

structure ALImage where
  predictions : List Prediction
  deriving DecidableEq, Repr, Inhabited

/-- A case dict: per-image predictions plus optional case-level fallback
predictions. -/
structure ALCase where
  images : List ALImage
  predictions : List Prediction := []
  deriving DecidableEq, Repr, Inhabited

/-- calculate_margin: difference of the two largest confidences; `1.0` for
fewer than two predictions. -/
def calculate_margin (predictions : List Prediction) : ℚ :=
  if predictions.length < 2 then 1
  else
    match stableSort (fun a b => decide (b.confidence ≤ a.confidence)) predictions with
    | a :: b :: _ => a.confidence - b.confidence
    | _ => 1  -- unreachable: sorting preserves length ≥ 2

/-- calculate_case_margin: minimum margin over the images that carry
predictions; fall back to case-level predictions when there are no images;
`1.0` when nothing carries predictions. -/
def calculate_case_margin (c : ALCase) : ℚ :=
  if c.images = [] then
    if c.predictions ≠ [] then calculate_margin c.predictions else 1
  else
    let margins := c.images.filterMap
      (fun img => if img.predictions ≠ [] then some (calculate_margin img.predictions) else none)
    match margins with
    | [] => 1
    | m :: rest => rest.foldl min m

/-- A case augmented with its margin and `uncertainty_score = 1 - margin`. -/
structure AugCase where
  base : ALCase
  margin : ℚ
  uncertainty_score : ℚ
  deriving DecidableEq, Repr, Inhabited

/-- Heap element `(margin, idx, case_with_margin)`. -/
structure HeapItem where
  margin : ℚ
  idx : Nat
  augCase : AugCase
  deriving DecidableEq, Repr, Inhabited

/-- Python tuple `<` on the first two components (indices are distinct in
every heap the code builds, so the comparison never goes further). -/
def heapLt (a b : HeapItem) : Bool :=
  decide (a.margin < b.margin) || (a.margin == b.margin && a.idx < b.idx)

def lget (heap : List HeapItem) (i : Nat) : HeapItem := heap.getD i default

/-- CPython `heapq._siftdown` loop; the position strictly decreases, so
`pos + 1` steps of fuel are exact. -/
def siftdownLoop (fuel : Nat) (heap : List HeapItem) (startpos pos : Nat)
    (newitem : HeapItem) : List HeapItem :=
  match fuel with
  | 0 => heap.set pos newitem
  | fuel + 1 =>
      if startpos < pos then
        let parentpos := (pos - 1) / 2
        let parent := lget heap parentpos
        if heapLt newitem parent then
          siftdownLoop fuel (heap.set pos parent) startpos parentpos newitem
        else heap.set pos newitem
      else heap.set pos newitem

def siftdown (heap : List HeapItem) (startpos pos : Nat) : List HeapItem :=
  siftdownLoop (pos + 1) heap startpos pos (lget heap pos)

/-- CPython `heapq._siftup` descent loop; the child index at least doubles
each step, so `length` steps of fuel are exact. -/
def siftupLoop (fuel : Nat) (heap : List HeapItem) (pos : Nat) :
    List HeapItem × Nat :=
  match fuel with
  | 0 => (heap, pos)
  | fuel + 1 =>
      let endpos := heap.length
      let childpos := 2 * pos + 1
      if childpos < endpos then
        let rightpos := childpos + 1
        let childpos :=
          if rightpos < endpos && !heapLt (lget heap childpos) (lget heap rightpos) then
            rightpos
          else childpos
        let heap := heap.set pos (lget heap childpos)
        siftupLoop fuel heap childpos
      else (heap, pos)

def siftup (heap : List HeapItem) (pos : Nat) : List HeapItem :=
  let startpos := pos
  let newitem := lget heap pos
  let r := siftupLoop heap.length heap pos
  let heap := r.1.set r.2 newitem
  siftdown heap startpos r.2

def heappush (heap : List HeapItem) (item : HeapItem) : List HeapItem :=
  siftdown (heap ++ [item]) 0 heap.length

def heapreplace (heap : List HeapItem) (item : HeapItem) : List HeapItem :=
  siftup (heap.set 0 item) 0

/-- select_uncertain_samples: push the first `top_k` cases onto the heap,
then replace through `heapreplace` whenever a margin is below the heap
root, and finally return the heap sorted by margin (stable).  Faithful for
`top_k ≥ 1`; the source raises an IndexError on an empty heap when
`top_k = 0`. -/
def select_uncertain_samples (cases : List ALCase) (top_k : Nat) : List AugCase :=
  let step := fun (acc : List HeapItem × Nat) (c : ALCase) =>
    let heap := acc.1
    let idx := acc.2
    let margin := calculate_case_margin c
    let case_with_margin : AugCase :=
      { base := c, margin := margin, uncertainty_score := 1 - margin }
    let heap :=
      if heap.length < top_k then heappush heap ⟨margin, idx, case_with_margin⟩
      else if decide (margin < (lget heap 0).margin) then
        heapreplace heap ⟨margin, idx, case_with_margin⟩
      else heap
    (heap, idx + 1)
  let final := (cases.foldl step ([], 0)).1
  (stableSort (fun a b => decide (a.margin ≤ b.margin)) final).map (fun h => h.augCase)

/-- Archive destination `archive/<old>/<basename>` for the file of the
displaced production entry. -/
def archivePathOf (old : String) (e : ModelEntry) : String :=
  pathJoin (pathJoin AL_ARCHIVE_DIR old) (basename e.path)

/-- The displaced production entry with its status archived. -/
def archivedEntry (e : ModelEntry) : ModelEntry :=
  { e with status := ModelStatus.ARCHIVED }

/-- The displaced production entry with its status archived and its path
moved into the archive tree. -/
def archivedEntryMoved (old : String) (e : ModelEntry) : ModelEntry :=
  { archivedEntry e with path := archivePathOf old e }

/-- Metric lookup with the `0.0` default of `dict.get(key, 0.0)`. -/
def metricValue (metrics : List (String × ℚ)) (key : String) : ℚ :=
  (dictGet metrics key).getD 0

/-- Python truthiness of the production metrics map: a production model
exists and its metrics map is non-empty. -/
def prodMetricsTruthy (reg : Registry) : Bool :=
  match get_production_metrics reg with
  | some pm => !pm.isEmpty
  | none => false

/-- Metric value of the production model, `0` when there is none. -/
def productionMetricValue (reg : Registry) (key : String) : ℚ :=
  match get_production_metrics reg with
  | some pm => metricValue pm key
  | none => 0

/-- The promotion condition `evaluate_and_promote` actually implements: the
candidate metrics map is non-empty, and either no production metric map is
available or the candidate value strictly exceeds the production value plus
the improvement threshold. -/
def shouldPromoteSpec (reg : Registry) (cand : ModelEntry) (key : String)
    (min_improvement : ℚ) : Prop :=
  cand.metrics ≠ [] ∧
  (prodMetricsTruthy reg = false ∨
    metricValue cand.metrics key > productionMetricValue reg key + min_improvement)

/-- Fixed production copy destination `production/model.pt`. -/
def PROD_MODEL_PATH : String := pathJoin AL_PRODUCTION_DIR "model.pt"

/-- The promoted entry as written by `promote_model` when the candidate
file is copied into the production directory. -/
def promotedEntry (ve : ModelEntry) : ModelEntry :=
  { ve with status := ModelStatus.PRODUCTION, production_path := some PROD_MODEL_PATH }

/-! ## Concrete instances used by counterexamples and witnesses -/

/-- Three single-image cases with margins 1/10, 1/5 and 1/20. -/
def demoCases : List ALCase :=
  [{ images := [⟨[⟨"mel", 6/10⟩, ⟨"nv", 5/10⟩]⟩] },
   { images := [⟨[⟨"mel", 7/10⟩, ⟨"nv", 5/10⟩]⟩] },
   { images := [⟨[⟨"mel", 6/10⟩, ⟨"nv", 11/20⟩]⟩] }]

/-- Register a model, then force its status to `production` through
`update_model_status`, leaving `current_production` null. -/
def demoBadOps : List RegOp :=
  [RegOp.register "v1" none [] "m.pt" "t0" ModelStatus.TRAINING,
   RegOp.updateStatus "v1" ModelStatus.PRODUCTION]

/-- A guarded register / promote / register / promote / rollback history. -/
def demoGoodOps : List RegOp :=
  [RegOp.register "v1" none [] "c1.pt" "t1" ModelStatus.TRAINING,
   RegOp.updateStatus "v1" ModelStatus.EVALUATING,
   RegOp.promote "v1",
   RegOp.register "v2" (some "v1") [] "c2.pt" "t2" ModelStatus.TRAINING,
   RegOp.promote "v2",
   RegOp.rollback "v1",
   RegOp.delete "v2"]

/-- Production entry at accuracy 7/10. -/
def demoV1Entry : ModelEntry :=
  { status := ModelStatus.PRODUCTION, created_at := "t1"
    base_model := none, training_config := []
    metrics := [("val_accuracy", 7/10)], path := "c1.pt" }

/-- Evaluating candidate entry at accuracy 4/5 (exactly 1/10 better). -/
def demoV2Entry : ModelEntry :=
  { status := ModelStatus.EVALUATING, created_at := "t2"
    base_model := some "v1", training_config := []
    metrics := [("val_accuracy", 4/5)], path := "c2.pt" }

/-- Registry with a production model `v1` and an evaluating candidate
`v2`. -/
def demoReg : Registry :=
  { models := [("v1", demoV1Entry), ("v2", demoV2Entry)]
    current_production := some "v1"
    pending_promotion := none
    active_inference := none }

/-- Registry with no production model and one candidate whose metrics map
is empty. -/
def demoRegEmptyMetrics : Registry :=
  { models :=
      [("v9", { status := ModelStatus.EVALUATING, created_at := "t9"
                base_model := none, training_config := []
                metrics := [], path := "c9.pt" })]
    current_production := none
    pending_promotion := none
    active_inference := none }

/-- Production entry at accuracy 1/2 (the float 0.5, a dyadic rational
represented exactly in binary floating point). -/
def demoV1DyadicEntry : ModelEntry :=
  { status := ModelStatus.PRODUCTION, created_at := "t1"
    base_model := none, training_config := []
    metrics := [("val_accuracy", 1/2)], path := "c1.pt" }

/-- Evaluating candidate entry at accuracy 3/4 (the float 0.75, dyadic and
exactly representable; exactly 1/4 better than the production entry). -/
def demoV2DyadicEntry : ModelEntry :=
  { status := ModelStatus.EVALUATING, created_at := "t2"
    base_model := some "v1", training_config := []
    metrics := [("val_accuracy", 3/4)], path := "c2.pt" }

/-- Registry with a production model `v1` and an evaluating candidate
`v2`, with dyadic metric values: 0.5, 0.25 and 0.75 are exact binary
floating-point numbers and 0.5 + 0.25 evaluates to exactly 0.75 in IEEE
double arithmetic, so on these inputs the floating-point comparisons of
the source coincide with the exact rational ones of the embedding. -/
def demoRegDyadic : Registry :=
  { models := [("v1", demoV1DyadicEntry), ("v2", demoV2DyadicEntry)]
    current_production := some "v1"
    pending_promotion := none
    active_inference := none }

/-- A close post followed by a reject post for the same case. -/
def demoUpserts : List UpsertOp :=
  [{ payload := { case_id := some "10000", status := some "pending" }
     entry_type := "case", default_status := "pending"
     user_role := "gp", now := "t1" },
   { payload := { case_id := some "10000" }
     entry_type := "reject", default_status := "rejected"
     user_role := "doctor", now := "t2" }]

/-- A ledger holding two image entries of case 10000. -/
def demoLedger : List CaseEntry :=
  [{ case_id := some "10000", image_id := some "imgB", status := some "success" },
   { case_id := some "10000", image_id := some "imgA", status := some "success" }]

/-- A single label record with one image and no usage yet. -/
def demoLabel : LabelRecord :=
  { case_id := "10001", image_paths := ["a.jpg"], correct_label := "mel"
    user_id := "u1", created_at := "t1", updated_at := "t1"
    used_in_models := [], image_retrain_history := [("a.jpg", [])] }

/-! ## Shared lemmas on the dict and file-system models -/

theorem dictGet_dictSet_self {α : Type} (m : List (String × α)) (k : String) (v : α) :
    dictGet (dictSet m k v) k = some v := by
  induction m with
  | nil => simp [dictGet, dictSet]
  | cons h t ih =>
      obtain ⟨k0, v0⟩ := h
      by_cases hk : k0 = k
      · subst hk
        simp [dictGet, dictSet]
      · simp only [dictSet, beq_iff_eq, hk, if_false]
        simpa [dictGet, List.find?_cons, hk] using ih

theorem dictGet_dictSet_ne {α : Type} (m : List (String × α)) (k k' : String) (v : α)
    (h : k' ≠ k) : dictGet (dictSet m k v) k' = dictGet m k' := by
  induction m with
  | nil =>
      have hne : (k == k') = false := beq_eq_false_iff_ne.mpr (Ne.symm h)
      simp [dictGet, dictSet, List.find?_cons, hne]
  | cons p t ih =>
      obtain ⟨k0, v0⟩ := p
      by_cases hk : k0 = k
      · subst hk
        have hne : (k0 == k') = false := beq_eq_false_iff_ne.mpr (Ne.symm h)
        simp [dictGet, dictSet, List.find?_cons, hne]
      · simp only [dictSet, beq_iff_eq, hk, if_false]
        by_cases h0 : k0 = k'
        · subst h0
          simp [dictGet, List.find?_cons]
        · have hne : ¬ (k0 == k') := by simpa [beq_iff_eq] using h0
          simpa [dictGet, List.find?_cons, hne] using ih

theorem mem_dictSet {α : Type} (m : List (String × α)) (k : String) (v : α) :
    ∀ p ∈ dictSet m k v, p = (k, v) ∨ p ∈ m := by
  induction m with
  | nil => intro p hp; simp [dictSet] at hp; exact Or.inl hp
  | cons q t ih =>
      obtain ⟨k0, v0⟩ := q
      intro p hp
      by_cases hk : k0 = k
      · subst hk
        simp only [dictSet, beq_self_eq_true, if_true, List.mem_cons] at hp
        rcases hp with hp | hp
        · exact Or.inl hp
        · exact Or.inr (List.mem_cons_of_mem _ hp)
      · simp only [dictSet, beq_iff_eq, hk, if_false, List.mem_cons] at hp
        rcases hp with hp | hp
        · exact Or.inr (by simp [hp])
        · rcases ih p hp with h | h
          · exact Or.inl h
          · exact Or.inr (List.mem_cons_of_mem _ h)

theorem mem_keys_dictSet {α : Type} (m : List (String × α)) (k : String) (v : α) :
    ∀ x ∈ (dictSet m k v).map Prod.fst, x ∈ m.map Prod.fst ∨ x = k := by
  intro x hx
  rcases List.mem_map.mp hx with ⟨p, hp, rfl⟩
  rcases mem_dictSet m k v p hp with h | h
  · exact Or.inr (by simp [h])
  · exact Or.inl (List.mem_map_of_mem _ h)

theorem nodup_keys_dictSet {α : Type} (m : List (String × α)) (k : String) (v : α)
    (h : (m.map Prod.fst).Nodup) : ((dictSet m k v).map Prod.fst).Nodup := by
  induction m with
  | nil => simp [dictSet]
  | cons q t ih =>
      obtain ⟨k0, v0⟩ := q
      simp only [List.map_cons, List.nodup_cons] at h
      by_cases hk : k0 = k
      · subst hk
        simpa [dictSet, List.nodup_cons] using h
      · simp only [dictSet, beq_iff_eq, hk, if_false, List.map_cons, List.nodup_cons]
        refine ⟨fun hc => ?_, ih h.2⟩
        rcases mem_keys_dictSet t k v k0 hc with hm | hm
        · exact h.1 hm
        · exact hk hm

theorem dictSet_dictSet {α : Type} (m : List (String × α)) (k : String) (a b : α) :
    dictSet (dictSet m k a) k b = dictSet m k b := by
  induction m with
  | nil => simp [dictSet]
  | cons q t ih =>
      obtain ⟨k0, v0⟩ := q
      by_cases hk : k0 = k
      · subst hk; simp [dictSet]
      · simp [dictSet, hk, ih]

theorem dictContains_dictSet {α : Type} (m : List (String × α)) (k k' : String) (v : α) :
    dictContains (dictSet m k v) k' = ((k' == k) || dictContains m k') := by
  by_cases h : k' = k
  · subst h; simp [dictContains, dictGet_dictSet_self]
  · have : (k' == k) = false := beq_eq_false_iff_ne.mpr h
    simp [dictContains, dictGet_dictSet_ne _ _ _ _ h, this]

theorem mem_of_dictGet {α : Type} {m : List (String × α)} {k : String} {v : α}
    (h : dictGet m k = some v) : (k, v) ∈ m := by
  rcases Option.map_eq_some'.mp h with ⟨p, hp, hv⟩
  have hmem := List.mem_of_find?_eq_some hp
  have hpred := List.find?_some hp
  have hk : p.1 = k := by simpa [beq_iff_eq] using hpred
  have : p = (k, v) := by
    cases p; simp at hk hv; simp [hk, hv]
  simpa [this] using hmem

theorem not_mem_of_dictGet_none {α : Type} {m : List (String × α)} {k : String}
    (h : dictGet m k = none) : ∀ p ∈ m, p.1 ≠ k := by
  intro p hp hk
  have hfind : m.find? (fun q => q.1 == k) = none := by
    simpa [dictGet] using h
  exact List.find?_eq_none.mp hfind p hp (by simp [hk])

theorem dictGet_of_mem_nodup {α : Type} {m : List (String × α)} {k : String} {v : α}
    (hnd : (m.map Prod.fst).Nodup) (h : (k, v) ∈ m) : dictGet m k = some v := by
  induction m with
  | nil => simp at h
  | cons q t ih =>
      obtain ⟨k0, v0⟩ := q
      simp only [List.map_cons, List.nodup_cons] at hnd
      rcases List.mem_cons.mp h with hq | hq
      · have hk : k0 = k := by cases hq; rfl
        have hv : v0 = v := by cases hq; rfl
        subst hk; subst hv
        simp [dictGet, List.find?_cons]
      · have hk0 : k0 ≠ k := by
          intro hc
          subst hc
          exact hnd.1 (List.mem_map_of_mem Prod.fst hq)
        have : (k0 == k) = false := beq_eq_false_iff_ne.mpr hk0
        simpa [dictGet, List.find?_cons, this] using ih hnd.2 hq

theorem mem_dictDel {α : Type} (m : List (String × α)) (k : String) :
    ∀ p ∈ dictDel m k, p ∈ m :=
  fun _ hp => List.mem_of_mem_filter hp

theorem nodup_keys_dictDel {α : Type} (m : List (String × α)) (k : String)
    (h : (m.map Prod.fst).Nodup) : ((dictDel m k).map Prod.fst).Nodup :=
  ((List.filter_sublist m).map Prod.fst).nodup h

theorem dictGet_dictDel_ne {α : Type} (m : List (String × α)) (k k' : String)
    (h : k' ≠ k) : dictGet (dictDel m k) k' = dictGet m k' := by
  induction m with
  | nil => simp [dictDel]
  | cons q t ih =>
      obtain ⟨k0, v0⟩ := q
      by_cases hk : k0 = k
      · subst hk
        have : (k0 == k') = false := beq_eq_false_iff_ne.mpr (Ne.symm h)
        simpa [dictDel, dictGet, List.find?_cons, this] using ih
      · by_cases h0 : k0 = k'
        · subst h0
          simp [dictDel, dictGet, List.find?_cons, bne_iff_ne, hk]
        · have : (k0 == k') = false := beq_eq_false_iff_ne.mpr h0
          simpa [dictDel, dictGet, List.find?_cons, bne_iff_ne, hk, this] using ih

theorem dictGet_dictDel_self {α : Type} (m : List (String × α)) (k : String) :
    dictGet (dictDel m k) k = none := by
  induction m with
  | nil => simp [dictDel, dictGet]
  | cons q t ih =>
      obtain ⟨k0, v0⟩ := q
      by_cases hk : k0 = k
      · subst hk
        simp [dictDel, dictGet, List.find?_cons]
      · have : (k0 == k) = false := beq_eq_false_iff_ne.mpr hk
        simp [dictDel, dictGet, List.find?_cons, bne_iff_ne, hk, this]

theorem mem_dictSet_nodup {α : Type} (m : List (String × α)) (k : String) (v : α)
    (hnd : (m.map Prod.fst).Nodup) :
    ∀ p ∈ dictSet m k v, p = (k, v) ∨ (p ∈ m ∧ p.1 ≠ k) := by
  induction m with
  | nil =>
      intro p hp
      simp [dictSet] at hp
      exact Or.inl hp
  | cons q t ih =>
      obtain ⟨k0, v0⟩ := q
      simp only [List.map_cons, List.nodup_cons] at hnd
      intro p hp
      by_cases hk : k0 = k
      · subst hk
        simp only [dictSet, beq_self_eq_true, if_true, List.mem_cons] at hp
        rcases hp with hp | hp
        · exact Or.inl hp
        · refine Or.inr ⟨List.mem_cons_of_mem _ hp, fun hc => ?_⟩
          exact hnd.1 (hc ▸ List.mem_map_of_mem Prod.fst hp)
      · simp only [dictSet, beq_iff_eq, hk, if_false, List.mem_cons] at hp
        rcases hp with hp | hp
        · subst hp
          exact Or.inr ⟨List.mem_cons_self _ _, hk⟩
        · rcases ih hnd.2 p hp with h | ⟨hm, hne⟩
          · exact Or.inl h
          · exact Or.inr ⟨List.mem_cons_of_mem _ hm, hne⟩

theorem fsExists_iff (fs : FS) (p : String) : fsExists fs p = true ↔ p ∈ fs := by
  simp [fsExists]

theorem fsExists_fsAdd (fs : FS) (p q : String) :
    fsExists (fsAdd fs p) q = true ↔ (fsExists fs q = true ∨ q = p) := by
  simp [fsExists, fsAdd]

theorem fsExists_fsRemove (fs : FS) (p q : String) :
    fsExists (fsRemove fs p) q = true ↔ (fsExists fs q = true ∧ q ≠ p) := by
  simp [fsExists, fsRemove, List.mem_filter, bne_iff_ne]

/-! ## Production-count lemmas and the registry invariant bridge -/

theorem prodCount_eq_zero (reg : Registry)
    (h : ∀ p ∈ reg.models, p.2.status ≠ ModelStatus.PRODUCTION) : prodCount reg = 0 := by
  unfold prodCount
  rw [List.length_eq_zero, List.filter_eq_nil_iff]
  intro p hp
  simpa using h p hp

theorem filter_prod_length_one (m : List (String × ModelEntry)) (v : String)
    (e : ModelEntry) (hnd : (m.map Prod.fst).Nodup) (hmem : (v, e) ∈ m)
    (hprod : e.status = ModelStatus.PRODUCTION)
    (hothers : ∀ p ∈ m, p.1 ≠ v → p.2.status ≠ ModelStatus.PRODUCTION) :
    (m.filter (fun p => p.2.status == ModelStatus.PRODUCTION)).length = 1 := by
  induction m with
  | nil => simp at hmem
  | cons q t ih =>
      obtain ⟨k0, e0⟩ := q
      simp only [List.map_cons, List.nodup_cons] at hnd
      rcases List.mem_cons.mp hmem with hq | hq
      · have hk : k0 = v := by cases hq; rfl
        have he : e0 = e := by cases hq; rfl
        subst hk; subst he
        have htail : t.filter (fun p => p.2.status == ModelStatus.PRODUCTION) = [] := by
          rw [List.filter_eq_nil_iff]
          intro p hp
          have hp1 : p.1 ≠ k0 := by
            intro hc
            exact hnd.1 (hc ▸ List.mem_map_of_mem Prod.fst hp)
          simpa using hothers p (List.mem_cons_of_mem _ hp) hp1
        simp [List.filter_cons, hprod, htail]
      · have hk0 : k0 ≠ v := by
          intro hc; subst hc
          exact hnd.1 (List.mem_map_of_mem Prod.fst hq)
        have h0 : e0.status ≠ ModelStatus.PRODUCTION :=
          hothers (k0, e0) (List.mem_cons_self _ _) hk0
        have := ih hnd.2 hq (fun p hp hne => hothers p (List.mem_cons_of_mem _ hp) hne)
        simpa [List.filter_cons, h0] using this

theorem registryInvariant_of_good (reg : Registry) (h : goodRegistry reg) :
    registryInvariant reg := by
  obtain ⟨hnd, hempty, hmain⟩ := h
  cases hcur : reg.current_production with
  | none =>
      rw [hcur] at hmain
      have h0 : prodCount reg = 0 := prodCount_eq_zero reg hmain
      refine ⟨by omega, by simp [h0, hcur], ?_⟩
      intro v hv
      rw [hcur] at hv
      cases hv
  | some v =>
      rw [hcur] at hmain
      obtain ⟨hvne, ⟨e, he, hst⟩, hothers⟩ := hmain
      have h1 : prodCount reg = 1 :=
        filter_prod_length_one reg.models v e hnd (mem_of_dictGet he) hst hothers
      refine ⟨by omega, by simp [prodCount] at h1 ⊢; simp [h1, hcur], ?_⟩
      intro v' hv'
      rw [hcur] at hv'
      injection hv' with hvv
      subst hvv
      exact ⟨e, he, hst⟩

/-! ## Decisive descriptions of the promotion steps -/

theorem archive_of_current_none (reg : Registry) (fs : FS)
    (hcur : reg.current_production = none) :
    archiveCurrentProduction reg fs = (reg, fs) := by
  unfold archiveCurrentProduction
  rw [hcur]

theorem archive_of_current_empty (reg : Registry) (fs : FS)
    (hcur : reg.current_production = some "") :
    archiveCurrentProduction reg fs = (reg, fs) := by
  unfold archiveCurrentProduction
  rw [hcur]
  simp

theorem archive_of_dangling (reg : Registry) (fs : FS) (old : String)
    (hcur : reg.current_production = some old)
    (hget : dictGet reg.models old = none) :
    archiveCurrentProduction reg fs = (reg, fs) := by
  unfold archiveCurrentProduction
  rw [hcur]
  by_cases hne : old = ""
  · simp [hne]
  · simp [hne, hget]

theorem archive_of_current_some (reg : Registry) (fs : FS) (old : String)
    (e : ModelEntry) (hcur : reg.current_production = some old) (hne : old ≠ "")
    (hget : dictGet reg.models old = some e) :
    archiveCurrentProduction reg fs =
      (if fsExists fs e.path then
        ({ reg with models := dictSet reg.models old (archivedEntryMoved old e) },
         fsMove fs e.path (archivePathOf old e))
      else
        ({ reg with models := dictSet reg.models old (archivedEntry e) }, fs)) := by
  unfold archiveCurrentProduction
  rw [hcur]
  by_cases hfs : fsExists fs e.path
  · simp [hne, hget, hfs, archivedEntryMoved, archivedEntry, archivePathOf]
  · simp [hne, hget, hfs, archivedEntry]

theorem archive_current_production (reg : Registry) (fs : FS) :
    (archiveCurrentProduction reg fs).1.current_production = reg.current_production := by
  cases hcur : reg.current_production with
  | none => rw [archive_of_current_none reg fs hcur, hcur]
  | some old =>
      by_cases hne : old = ""
      · subst hne
        rw [archive_of_current_empty reg fs hcur, hcur]
      · cases hget : dictGet reg.models old with
        | none => rw [archive_of_dangling reg fs old hcur hget, hcur]
        | some e =>
            rw [archive_of_current_some reg fs old e hcur hne hget]
            by_cases hfs : fsExists fs e.path
            · rw [if_pos hfs]
              exact hcur
            · rw [if_neg hfs]
              exact hcur

theorem archive_models_cases (reg : Registry) (fs : FS) :
    (archiveCurrentProduction reg fs).1.models = reg.models ∨
    ∃ old e', reg.current_production = some old ∧ old ≠ "" ∧
      (archiveCurrentProduction reg fs).1.models = dictSet reg.models old e' := by
  cases hcur : reg.current_production with
  | none => rw [archive_of_current_none reg fs hcur]; exact Or.inl rfl
  | some old =>
      by_cases hne : old = ""
      · subst hne
        rw [archive_of_current_empty reg fs hcur]
        exact Or.inl rfl
      · cases hget : dictGet reg.models old with
        | none =>
            rw [archive_of_dangling reg fs old hcur hget]
            exact Or.inl rfl
        | some e =>
            rw [archive_of_current_some reg fs old e hcur hne hget]
            by_cases hfs : fsExists fs e.path
            · rw [if_pos hfs]
              exact Or.inr ⟨old, archivedEntryMoved old e, rfl, hne, rfl⟩
            · rw [if_neg hfs]
              exact Or.inr ⟨old, archivedEntry e, rfl, hne, rfl⟩

theorem promote_model_spec (reg : Registry) (fs : FS) (vid : String)
    (hv : dictContains reg.models vid = true) :
    ∃ e', (promote_model reg fs vid).1 = true ∧
      (promote_model reg fs vid).2.1.current_production = some vid ∧
      e'.status = ModelStatus.PRODUCTION ∧
      (promote_model reg fs vid).2.1.models =
        dictSet (archiveCurrentProduction reg fs).1.models vid e' := by
  have hcont : dictContains (archiveCurrentProduction reg fs).1.models vid = true := by
    rcases archive_models_cases reg fs with h | ⟨old, e', _, _, hm⟩
    · rw [h]; exact hv
    · rw [hm, dictContains_dictSet, hv]
      simp
  rcases Option.isSome_iff_exists.mp (by simpa [dictContains] using hcont) with ⟨entry, hget⟩
  unfold promote_model
  rw [if_neg (by simp [hv])]
  simp only [hget]
  split
  · exact ⟨_, rfl, rfl, rfl, by rw [dictSet_dictSet]⟩
  · exact ⟨_, rfl, rfl, rfl, rfl⟩

/-! ## Preservation of the structural invariant by each registry operation -/

theorem goodRegistry_init : goodRegistry initRegistry := by
  refine ⟨by simp [initRegistry], by simp [initRegistry, dictContains, dictGet], ?_⟩
  intro p hp
  simp [initRegistry] at hp

theorem goodRegistry_register (reg : Registry) (vid : String) (base : Option String)
    (cfg : List (String × String)) (path now status : String)
    (hg : goodRegistry reg) (hstat : status ≠ ModelStatus.PRODUCTION)
    (hcur : reg.current_production ≠ some vid) (hvne : vid ≠ "") :
    goodRegistry (register_model reg vid base cfg path now status).1 := by
  obtain ⟨hnd, hemp, hmain⟩ := hg
  refine ⟨nodup_keys_dictSet _ _ _ hnd, ?_, ?_⟩
  · show dictContains (dictSet reg.models vid _) "" = false
    rw [dictContains_dictSet]
    have h0 : ("" == vid) = false := beq_eq_false_iff_ne.mpr (Ne.symm hvne)
    simp [h0, hemp]
  · show goodModels (dictSet reg.models vid _) reg.current_production
    cases hc : reg.current_production with
    | none =>
        rw [hc] at hmain
        intro p hp
        rcases mem_dictSet _ _ _ p hp with h | h
        · rw [h]; exact hstat
        · exact hmain p h
    | some v =>
        rw [hc] at hmain
        obtain ⟨hvne2, ⟨e, he, hst⟩, hothers⟩ := hmain
        have hvv : v ≠ vid := fun h2 => hcur (by rw [hc, h2])
        refine ⟨hvne2, ⟨e, ?_, hst⟩, ?_⟩
        · rw [dictGet_dictSet_ne _ _ _ _ hvv]; exact he
        · intro p hp hne
          rcases mem_dictSet _ _ _ p hp with h | h
          · rw [h]; exact hstat
          · exact hothers p h hne

theorem goodRegistry_updateStatus (reg : Registry) (vid status : String)
    (hg : goodRegistry reg) (hstat : status ≠ ModelStatus.PRODUCTION)
    (hcur : reg.current_production ≠ some vid) :
    goodRegistry (update_model_status reg vid status).1 := by
  unfold update_model_status
  cases hget : dictGet reg.models vid with
  | none => exact hg
  | some e =>
      obtain ⟨hnd, hemp, hmain⟩ := hg
      refine ⟨nodup_keys_dictSet _ _ _ hnd, ?_, ?_⟩
      · show dictContains (dictSet reg.models vid _) "" = false
        rw [dictContains_dictSet]
        have hvne : vid ≠ "" := by
          intro h
          rw [h] at hget
          simp [dictContains, hget] at hemp
        have h0 : ("" == vid) = false := beq_eq_false_iff_ne.mpr (Ne.symm hvne)
        simp [h0, hemp]
      · show goodModels (dictSet reg.models vid _) reg.current_production
        cases hc : reg.current_production with
        | none =>
            rw [hc] at hmain
            intro p hp
            rcases mem_dictSet _ _ _ p hp with h | h
            · rw [h]; exact hstat
            · exact hmain p h
        | some v =>
            rw [hc] at hmain
            obtain ⟨hvne2, ⟨e2, he2, hst2⟩, hothers⟩ := hmain
            have hvv : v ≠ vid := fun h2 => hcur (by rw [hc, h2])
            refine ⟨hvne2, ⟨e2, ?_, hst2⟩, ?_⟩
            · rw [dictGet_dictSet_ne _ _ _ _ hvv]; exact he2
            · intro p hp hne
              rcases mem_dictSet _ _ _ p hp with h | h
              · rw [h]; exact hstat
              · exact hothers p h hne

theorem goodRegistry_promote (reg : Registry) (fs : FS) (vid : String)
    (hg : goodRegistry reg) : goodRegistry (promote_model reg fs vid).2.1 := by
  by_cases hv : dictContains reg.models vid = true
  · obtain ⟨e', hok, hcurP, hstP, hmP⟩ := promote_model_spec reg fs vid hv
    obtain ⟨hnd, hemp, hmain⟩ := hg
    have hvid_ne : vid ≠ "" := by
      intro h
      rw [h] at hv
      simp [hv] at hemp
    -- Precise shape of the archived intermediate state.
    have harch : ∃ archM, (archiveCurrentProduction reg fs).1.models = archM ∧
        (archM.map Prod.fst).Nodup ∧ dictContains archM "" = false ∧
        ∀ p ∈ archM, p.1 ≠ vid → p.2.status ≠ ModelStatus.PRODUCTION := by
      cases hc : reg.current_production with
      | none =>
          rw [hc] at hmain
          refine ⟨reg.models, by rw [archive_of_current_none reg fs hc], hnd, hemp, ?_⟩
          intro p hp _
          exact hmain p hp
      | some v =>
          rw [hc] at hmain
          obtain ⟨hvne2, ⟨e, he, hst⟩, hothers⟩ := hmain
          have harcheq := archive_of_current_some reg fs v e hc hvne2 he
          have hstArch : (archivedEntry e).status = ModelStatus.ARCHIVED := rfl
          have hstArchM : (archivedEntryMoved v e).status = ModelStatus.ARCHIVED := rfl
          by_cases hfs : fsExists fs e.path
      -- Both branches replace the displaced entry by an archived one.
          · refine ⟨dictSet reg.models v (archivedEntryMoved v e), ?_, ?_, ?_, ?_⟩
            · rw [harcheq, if_pos hfs]
            · exact nodup_keys_dictSet _ _ _ hnd
            · rw [dictContains_dictSet]
              have h0 : ("" == v) = false := beq_eq_false_iff_ne.mpr (Ne.symm hvne2)
              simp [h0, hemp]
            · intro p hp _
              rcases mem_dictSet_nodup _ _ _ hnd p hp with h | ⟨hm, hne⟩
              · rw [h, hstArchM]
                simp [ModelStatus.ARCHIVED, ModelStatus.PRODUCTION]
              · exact hothers p hm hne
          · refine ⟨dictSet reg.models v (archivedEntry e), ?_, ?_, ?_, ?_⟩
            · rw [harcheq, if_neg hfs]
            · exact nodup_keys_dictSet _ _ _ hnd
            · rw [dictContains_dictSet]
              have h0 : ("" == v) = false := beq_eq_false_iff_ne.mpr (Ne.symm hvne2)
              simp [h0, hemp]
            · intro p hp _
              rcases mem_dictSet_nodup _ _ _ hnd p hp with h | ⟨hm, hne⟩
              · rw [h, hstArch]
                simp [ModelStatus.ARCHIVED, ModelStatus.PRODUCTION]
              · exact hothers p hm hne
    obtain ⟨archM, harchEq, hndA, hempA, hothersA⟩ := harch
    rw [harchEq] at hmP
    refine ⟨?_, ?_, ?_⟩
    · rw [hmP]; exact nodup_keys_dictSet _ _ _ hndA
    · rw [hmP, dictContains_dictSet]
      have h0 : ("" == vid) = false := beq_eq_false_iff_ne.mpr (Ne.symm hvid_ne)
      simp [h0, hempA]
    · rw [hmP, hcurP]
      refine ⟨hvid_ne, ⟨e', dictGet_dictSet_self _ _ _, hstP⟩, ?_⟩
      intro p hp hne
      rcases mem_dictSet_nodup _ _ _ hndA p hp with h | ⟨hm, _⟩
      · exact absurd (by rw [h]) hne
      · exact hothersA p hm hne
  · unfold promote_model
    rw [if_pos (by simpa using hv)]
    exact hg

theorem goodRegistry_rollback (reg : Registry) (fs : FS) (vid : String)
    (hg : goodRegistry reg) : goodRegistry (rollback_to reg fs vid).2.1 := by
  unfold rollback_to
  cases hget : dictGet reg.models vid with
  | none => exact hg
  | some e =>
      by_cases hs : e.status = ModelStatus.ARCHIVED ∨ e.status = ModelStatus.PRODUCTION
      · simpa [hs] using goodRegistry_promote reg fs vid hg
      · simpa [hs] using hg

theorem goodRegistry_delete (reg : Registry) (fs : FS) (vid : String)
    (hg : goodRegistry reg) : goodRegistry (delete_model reg fs vid).2.1 := by
  unfold delete_model
  by_cases hv : dictContains reg.models vid = true
  · rw [if_neg (by simpa using hv)]
    by_cases hc : reg.current_production = some vid
    · rw [if_pos hc]
      exact hg
    · rw [if_neg hc]
      obtain ⟨hnd, hemp, hmain⟩ := hg
      refine ⟨nodup_keys_dictDel _ _ hnd, ?_, ?_⟩
      · show dictContains (dictDel reg.models vid) "" = false
        by_cases h0 : ("" : String) = vid
        · rw [h0]
          simp [dictContains, dictGet_dictDel_self]
        · simp [dictContains, dictGet_dictDel_ne _ _ _ h0]
          simpa [dictContains] using hemp
      · show goodModels (dictDel reg.models vid) reg.current_production
        cases hcur2 : reg.current_production with
        | none =>
            rw [hcur2] at hmain
            intro p hp
            exact hmain p (mem_dictDel _ _ p hp)
        | some v =>
            rw [hcur2] at hmain
            obtain ⟨hvne, ⟨e, he, hst⟩, hothers⟩ := hmain
            have hvvid : v ≠ vid := fun h => hc (by rw [hcur2, h])
            refine ⟨hvne, ⟨e, ?_, hst⟩, ?_⟩
            · rw [dictGet_dictDel_ne _ _ _ hvvid]; exact he
            · intro p hp hne
              exact hothers p (mem_dictDel _ _ p hp) hne
  · rw [if_pos (by simpa using hv)]
    exact hg

theorem goodRegistry_regStep (s : Registry × FS) (op : RegOp)
    (hg : goodRegistry s.1) (hs : safeOp s.1 op = true) :
    goodRegistry (regStep s op).1 := by
  cases op with
  | register vid base cfg path now status =>
      simp only [safeOp, Bool.and_eq_true, bne_iff_ne, ne_eq] at hs
      exact goodRegistry_register s.1 vid base cfg path now status hg hs.1.1 hs.1.2 hs.2
  | updateStatus vid status =>
      simp only [safeOp, Bool.and_eq_true, bne_iff_ne, ne_eq] at hs
      exact goodRegistry_updateStatus s.1 vid status hg hs.1 hs.2
  | promote vid => exact goodRegistry_promote s.1 s.2 vid hg
  | rollback vid => exact goodRegistry_rollback s.1 s.2 vid hg
  | delete vid => exact goodRegistry_delete s.1 s.2 vid hg

theorem goodRegistry_regRun (ops : List RegOp) :
    ∀ s : Registry × FS, goodRegistry s.1 → safeRun s ops = true →
      goodRegistry (regRun s ops).1 := by
  induction ops with
  | nil =>
      intro s hg _
      simpa [regRun] using hg
  | cons op ops ih =>
      intro s hg hsafe
      simp only [safeRun, Bool.and_eq_true] at hsafe
      have h1 := goodRegistry_regStep s op hg hsafe.1
      have h2 := ih (regStep s op) h1 hsafe.2
      simpa [regRun, List.foldl_cons] using h2

/-! ## Claim C1: the production-pointer invariant -/

/-- C1 counterexample: the invariant does not hold for every operation
sequence.  Registering a model and then calling `update_model_status` with
status `production` yields a registry with one production version while
`current_production` is still null, so the claimed equivalence fails. -/
theorem C1_registry_invariant_counterexample :
    prodCount (regRun (initRegistry, ([] : FS)) demoBadOps).1 = 1 ∧
    (regRun (initRegistry, ([] : FS)) demoBadOps).1.current_production = none ∧
    ¬ registryInvariant (regRun (initRegistry, ([] : FS)) demoBadOps).1 := by
  have h1 : prodCount (regRun (initRegistry, ([] : FS)) demoBadOps).1 = 1 := by decide
  have h2 : (regRun (initRegistry, ([] : FS)) demoBadOps).1.current_production = none := by
    decide
  exact ⟨h1, h2, fun h => (h.2.1.mp h1) h2⟩

/-- C1 (amended): for every sequence of registry operations in which
`register_model` and `update_model_status` never write the `production`
status, never target the version currently referenced by
`current_production`, and no model is registered under the empty version
id, the registry satisfies the invariant: at most one version has status
`production`, exactly one precisely when `current_production` is non-null,
and the version named by `current_production` is the production one. -/
theorem C1_registry_invariant_amended (ops : List RegOp) (fs0 : FS)
    (hsafe : safeRun (initRegistry, fs0) ops = true) :
    registryInvariant (regRun (initRegistry, fs0) ops).1 :=
  registryInvariant_of_good _ (goodRegistry_regRun ops _ goodRegistry_init hsafe)

/-- C1 witness: a concrete guarded history of registrations, promotions, a
rollback and a deletion satisfies the invariant. -/
theorem C1_registry_invariant_witness :
    safeRun (initRegistry, ([] : FS)) demoGoodOps = true ∧
    registryInvariant (regRun (initRegistry, ([] : FS)) demoGoodOps).1 :=
  ⟨by decide, C1_registry_invariant_amended demoGoodOps [] (by decide)⟩

/-! ## Claim C2: functional behaviour of a successful promotion -/

/-- C2: after `promote_model vid` succeeds over a registry whose current
production is a different version X (both files present, the candidate
outside the production directory, no path aliasing), the production
pointer answers vid, X is archived with its file moved to
`archive/<X>/<basename>` and its path updated, and the candidate file is
copied to `production/model.pt`, recorded as `production_path`, with the
candidate copy kept. -/
theorem C2_promote_model_functional (reg : Registry) (fs : FS) (vid X : String)
    (ve xe : ModelEntry)
    (hv : dictGet reg.models vid = some ve) (hvne : vid ≠ "")
    (hX : reg.current_production = some X) (hXvid : X ≠ vid) (hXne : X ≠ "")
    (hxe : dictGet reg.models X = some xe)
    (hxfs : fsExists fs xe.path = true)
    (hvfs : fsExists fs ve.path = true)
    (hout : strContains ve.path AL_PRODUCTION_DIR = false)
    (hpne : ve.path ≠ xe.path)
    (hxarch : xe.path ≠ archivePathOf X xe)
    (hxprod : xe.path ≠ PROD_MODEL_PATH) :
    (promote_model reg fs vid).1 = true ∧
    (get_production_model (promote_model reg fs vid).2.1).map Prod.fst = some vid ∧
    dictGet (promote_model reg fs vid).2.1.models X = some (archivedEntryMoved X xe) ∧
    fsExists (promote_model reg fs vid).2.2 (archivePathOf X xe) = true ∧
    fsExists (promote_model reg fs vid).2.2 xe.path = false ∧
    dictGet (promote_model reg fs vid).2.1.models vid = some (promotedEntry ve) ∧
    fsExists (promote_model reg fs vid).2.2 PROD_MODEL_PATH = true ∧
    fsExists (promote_model reg fs vid).2.2 ve.path = true := by
  have harch2 : archiveCurrentProduction reg fs =
      ({ reg with models := dictSet reg.models X (archivedEntryMoved X xe) },
       fsMove fs xe.path (archivePathOf X xe)) := by
    rw [archive_of_current_some reg fs X xe hX hXne hxe, if_pos hxfs]
  have hvid_get : dictGet (dictSet reg.models X (archivedEntryMoved X xe)) vid = some ve := by
    rw [dictGet_dictSet_ne _ _ _ _ (fun h => hXvid h.symm)]
    exact hv
  have hv_in_fs1 : fsExists (fsMove fs xe.path (archivePathOf X xe)) ve.path = true := by
    unfold fsMove
    exact (fsExists_fsAdd _ _ _).mpr (Or.inl ((fsExists_fsRemove _ _ _).mpr ⟨hvfs, hpne⟩))
  have hcond : (fsExists (fsMove fs xe.path (archivePathOf X xe)) ve.path &&
      !strContains ve.path AL_PRODUCTION_DIR) = true := by
    rw [hv_in_fs1, hout]
    rfl
  have hguard : ¬¬ dictContains reg.models vid = true := by
    simp [dictContains, hv]
  have hres : promote_model reg fs vid =
      (true,
       { reg with
           models := dictSet (dictSet reg.models X (archivedEntryMoved X xe)) vid
             (promotedEntry ve)
           current_production := some vid },
       fsCopy (fsMove fs xe.path (archivePathOf X xe)) ve.path PROD_MODEL_PATH) := by
    unfold promote_model
    rw [if_neg (by simpa using hguard)]
    simp only [harch2]
    simp only [hvid_get]
    rw [if_pos (by simpa using hcond)]
    rw [dictSet_dictSet]
    rfl
  rw [hres]
  refine ⟨rfl, ?_, ?_, ?_, ?_, ?_, ?_, ?_⟩
  · unfold get_production_model
    simp only [hvne, if_false]
    rw [dictGet_dictSet_self]
    simp [hvne]
  · rw [dictGet_dictSet_ne _ _ _ _ hXvid, dictGet_dictSet_self]
  · unfold fsCopy fsMove
    exact (fsExists_fsAdd _ _ _).mpr
      (Or.inl ((fsExists_fsAdd _ _ _).mpr (Or.inr rfl)))
  · have hne : fsExists (fsCopy (fsMove fs xe.path (archivePathOf X xe)) ve.path
        PROD_MODEL_PATH) xe.path ≠ true := by
      intro hmem
      unfold fsCopy fsMove at hmem
      rcases (fsExists_fsAdd _ _ _).mp hmem with h | h
      · rcases (fsExists_fsAdd _ _ _).mp h with h2 | h2
        · exact ((fsExists_fsRemove _ _ _).mp h2).2 rfl
        · exact hxarch h2
      · exact hxprod h
    exact Bool.eq_false_iff.mpr hne
  · rw [dictGet_dictSet_self]
  · unfold fsCopy
    exact (fsExists_fsAdd _ _ _).mpr (Or.inr rfl)
  · unfold fsCopy
    exact (fsExists_fsAdd _ _ _).mpr (Or.inl hv_in_fs1)

/-- C2 witness: promoting the concrete candidate `v2` over production `v1`
succeeds, archives `v1` with its file under the archive tree, and installs
`v2` with a production copy. -/
theorem C2_promote_model_witness :
    (promote_model demoReg ["c1.pt", "c2.pt"] "v2").1 = true ∧
    (get_production_model (promote_model demoReg ["c1.pt", "c2.pt"] "v2").2.1).map
      Prod.fst = some "v2" ∧
    dictGet (promote_model demoReg ["c1.pt", "c2.pt"] "v2").2.1.models "v1" =
      some (archivedEntryMoved "v1" demoV1Entry) ∧
    fsExists (promote_model demoReg ["c1.pt", "c2.pt"] "v2").2.2
      (archivePathOf "v1" demoV1Entry) = true := by
  have h := C2_promote_model_functional demoReg ["c1.pt", "c2.pt"] "v2" "v1"
    demoV2Entry demoV1Entry
    (by with_unfolding_all rfl) (by decide) (by with_unfolding_all rfl) (by decide)
    (by decide) (by with_unfolding_all rfl) (by with_unfolding_all rfl)
    (by with_unfolding_all rfl) (by with_unfolding_all rfl)
    (of_decide_eq_true (by with_unfolding_all rfl))
    (of_decide_eq_true (by with_unfolding_all rfl))
    (of_decide_eq_true (by with_unfolding_all rfl))
  exact ⟨h.1, h.2.1, h.2.2.1, h.2.2.2.1⟩

/-! ## Comparison and auto-promotion lemmas -/

theorem compare_models_eq (reg : Registry) (vid key : String) (th : ℚ)
    (cand : ModelEntry) (h : dictGet reg.models vid = some cand) :
    compare_models reg vid key th =
      (if cand.metrics = [] then (false, 0, 0)
       else if prodMetricsTruthy reg = false then (true, metricValue cand.metrics key, 0)
       else (decide (metricValue cand.metrics key > productionMetricValue reg key + th),
             metricValue cand.metrics key, productionMetricValue reg key)) := by
  unfold compare_models get_candidate_metrics get_model_metrics get_model
  rw [h]
  simp only [Option.map_some']
  by_cases hc : cand.metrics = []
  · simp [hc]
  · simp only [hc, if_false]
    cases hp : get_production_metrics reg with
    | none => simp [prodMetricsTruthy, hp, metricValue]
    | some pm =>
        by_cases hpe : pm = []
        · simp [prodMetricsTruthy, hp, hpe, metricValue]
        · simp [prodMetricsTruthy, hp, hpe, metricValue, productionMetricValue,
            List.isEmpty_iff]

theorem eval_missing (reg : Registry) (fs : FS) (vid key : String) (min_imp : ℚ)
    (h : dictGet reg.models vid = none) :
    evaluate_and_promote reg fs vid key min_imp true =
      ({ success := false, error := some ("Model " ++ vid ++ " not found")
         promoted := false }, reg, fs) := by
  unfold evaluate_and_promote get_model
  rw [h]
  rfl

theorem eval_should_iff (reg : Registry) (vid key : String) (min_imp : ℚ)
    (cand : ModelEntry) (h : dictGet reg.models vid = some cand) :
    ((compare_models reg vid key min_imp).1 = true ↔ shouldPromoteSpec reg cand key min_imp) := by
  rw [compare_models_eq reg vid key min_imp cand h]
  by_cases hc : cand.metrics = []
  · simp [hc, shouldPromoteSpec]
  · by_cases hp : prodMetricsTruthy reg = false
    · simp [hc, hp, shouldPromoteSpec]
    · simp [hc, hp, shouldPromoteSpec]

theorem eval_promote_branch (reg : Registry) (fs : FS) (vid key : String) (min_imp : ℚ)
    (cand : ModelEntry) (h : dictGet reg.models vid = some cand)
    (hshould : (compare_models reg vid key min_imp).1 = true) :
    (evaluate_and_promote reg fs vid key min_imp true).1.promoted = true ∧
    (evaluate_and_promote reg fs vid key min_imp true).1.previous_production =
      some ((get_production_model reg).map Prod.fst) := by
  have hv : dictContains reg.models vid = true := by simp [dictContains, h]
  obtain ⟨e', hok, _, _, _⟩ := promote_model_spec reg fs vid hv
  unfold evaluate_and_promote
  rw [show get_model reg vid = some (vid, cand) by unfold get_model; rw [h]; rfl]
  simp only [hshould, hok, Bool.and_self, if_true]
  refine ⟨?_, ?_⟩ <;> simp

theorem eval_archive_branch (reg : Registry) (fs : FS) (vid key : String) (min_imp : ℚ)
    (cand : ModelEntry) (h : dictGet reg.models vid = some cand)
    (hshould : (compare_models reg vid key min_imp).1 = false) :
    (evaluate_and_promote reg fs vid key min_imp true).1.promoted = false ∧
    (evaluate_and_promote reg fs vid key min_imp true).1.reason ≠ none ∧
    (dictGet (evaluate_and_promote reg fs vid key min_imp true).2.1.models vid).map
      ModelEntry.status = some ModelStatus.ARCHIVED := by
  unfold evaluate_and_promote
  rw [show get_model reg vid = some (vid, cand) by unfold get_model; rw [h]; rfl]
  simp only [hshould, Bool.false_and, Bool.not_false]
  rw [if_neg Bool.false_ne_true]
  simp only [if_true]
  refine ⟨by trivial, by simp, ?_⟩
  show Option.map ModelEntry.status
    (dictGet (update_model_status reg vid ModelStatus.ARCHIVED).1.models vid) =
    some ModelStatus.ARCHIVED
  unfold update_model_status
  rw [h]
  simp only []
  rw [dictGet_dictSet_self]
  rfl

/-! ## Claim C3: evaluate_and_promote -/

/-- C3 counterexample: the comparison is strict, not `at least`.  With
production accuracy 1/2, candidate accuracy 3/4 and `min_improvement` 1/4,
the candidate exceeds production by exactly the threshold, yet it is not
promoted and ends up archived.  All three values are dyadic rationals
(0.5, 0.75, 0.25) that IEEE double arithmetic represents exactly, and the
sum 0.5 + 0.25 is exactly 0.75, so the floating-point test
`0.75 > 0.5 + 0.25` in the source evaluates to False just as the exact
rational test here does.  Moreover, with no production model a candidate
with an empty metrics map is not promoted either, refuting `any candidate
is promotable`. -/
theorem C3_evaluate_and_promote_counterexample :
    (evaluate_and_promote demoRegDyadic [] "v2" "val_accuracy" (1/4) true).1.candidate_value -
      (evaluate_and_promote demoRegDyadic [] "v2" "val_accuracy" (1/4) true).1.production_value
      = 1/4 ∧
    (evaluate_and_promote demoRegDyadic [] "v2" "val_accuracy" (1/4) true).1.promoted = false ∧
    (dictGet (evaluate_and_promote demoRegDyadic [] "v2" "val_accuracy" (1/4) true).2.1.models
      "v2").map ModelEntry.status = some ModelStatus.ARCHIVED ∧
    demoRegEmptyMetrics.current_production = none ∧
    dictContains demoRegEmptyMetrics.models "v9" = true ∧
    (evaluate_and_promote demoRegEmptyMetrics [] "v9" "val_accuracy" 0 true).1.promoted
      = false := by
  refine ⟨?_, ?_, ?_, ?_, ?_, ?_⟩ <;> with_unfolding_all rfl

/-- C3 (amended): `evaluate_and_promote(vid, metric, min_improvement,
auto=true)` fails (success false, error reported, state unchanged) when the
candidate does not exist; otherwise it promotes, and reports the previous
production, exactly when the candidate metrics map is non-empty and either
no production metric map is available (no production model, or an empty
production metrics map) or the candidate value exceeds the production
value by strictly more than `min_improvement`; when it does not promote it
archives the candidate and reports a reason. -/
theorem C3_evaluate_and_promote_amended (reg : Registry) (fs : FS) (vid key : String)
    (min_imp : ℚ) :
    (dictGet reg.models vid = none →
      (evaluate_and_promote reg fs vid key min_imp true).1.success = false ∧
      (evaluate_and_promote reg fs vid key min_imp true).1.promoted = false ∧
      (evaluate_and_promote reg fs vid key min_imp true).1.error ≠ none ∧
      (evaluate_and_promote reg fs vid key min_imp true).2.1 = reg ∧
      (evaluate_and_promote reg fs vid key min_imp true).2.2 = fs) ∧
    (∀ cand, dictGet reg.models vid = some cand →
      (((evaluate_and_promote reg fs vid key min_imp true).1.promoted = true) ↔
        shouldPromoteSpec reg cand key min_imp) ∧
      (shouldPromoteSpec reg cand key min_imp →
        (evaluate_and_promote reg fs vid key min_imp true).1.previous_production =
          some ((get_production_model reg).map Prod.fst)) ∧
      (¬ shouldPromoteSpec reg cand key min_imp →
        (dictGet (evaluate_and_promote reg fs vid key min_imp true).2.1.models vid).map
          ModelEntry.status = some ModelStatus.ARCHIVED ∧
        (evaluate_and_promote reg fs vid key min_imp true).1.reason ≠ none)) := by
  constructor
  · intro hnone
    rw [eval_missing reg fs vid key min_imp hnone]
    exact ⟨rfl, rfl, by simp, rfl, rfl⟩
  · intro cand hcand
    have hiff := eval_should_iff reg vid key min_imp cand hcand
    by_cases hs : (compare_models reg vid key min_imp).1 = true
    · obtain ⟨hp, hprev⟩ := eval_promote_branch reg fs vid key min_imp cand hcand hs
      refine ⟨?_, fun _ => hprev, fun hns => absurd (hiff.mp hs) hns⟩
      rw [hp]
      exact ⟨fun _ => hiff.mp hs, fun _ => rfl⟩
    · have hs2 : (compare_models reg vid key min_imp).1 = false := by
        simpa using hs
      obtain ⟨hp, hreason, harch⟩ := eval_archive_branch reg fs vid key min_imp cand hcand hs2
      refine ⟨?_, fun hspec => absurd (hiff.mpr hspec) hs, fun _ => ⟨harch, hreason⟩⟩
      rw [hp]
      constructor
      · intro hfalse
        cases hfalse
      · intro hspec
        exact absurd (hiff.mpr hspec) hs

/-- C3 witness: with zero threshold the concrete candidate strictly beats
production (0.75 over 0.5, both float-exact dyadic values), is promoted,
and the previous production is reported. -/
theorem C3_evaluate_and_promote_witness :
    (evaluate_and_promote demoRegDyadic [] "v2" "val_accuracy" 0 true).1.promoted = true ∧
    (evaluate_and_promote demoRegDyadic [] "v2" "val_accuracy" 0 true).1.previous_production =
      some (some "v1") := by
  have h := (C3_evaluate_and_promote_amended demoRegDyadic [] "v2" "val_accuracy" 0).2
    demoV2DyadicEntry (by with_unfolding_all rfl)
  have hspec : shouldPromoteSpec demoRegDyadic demoV2DyadicEntry "val_accuracy" 0 := by
    refine ⟨?_, Or.inr ?_⟩
    · exact of_decide_eq_true (by with_unfolding_all rfl)
    · exact of_decide_eq_true (by with_unfolding_all rfl)
  refine ⟨h.1.mpr hspec, (h.2.1 hspec).trans ?_⟩
  with_unfolding_all rfl

/-! ## Claim C10: defaults in compare_models -/

/-- C10: a metric key absent from a metrics map counts as `0.0` (for both
candidate and production), and a candidate with an empty metrics map is
never promotable: `compare_models` answers `(false, 0, 0)` for it whatever
the registry, in particular when no production model exists. -/
theorem C10_compare_models_defaults (reg : Registry) (vid key : String) (th : ℚ)
    (cand : ModelEntry) (hcand : dictGet reg.models vid = some cand) :
    (cand.metrics = [] → compare_models reg vid key th = (false, 0, 0)) ∧
    (cand.metrics ≠ [] → dictGet cand.metrics key = none →
      (compare_models reg vid key th).2.1 = 0) ∧
    (∀ pm, cand.metrics ≠ [] → get_production_metrics reg = some pm → pm ≠ [] →
      dictGet pm key = none → (compare_models reg vid key th).2.2 = 0) := by
  have hc := compare_models_eq reg vid key th cand hcand
  refine ⟨?_, ?_, ?_⟩
  · intro h1
    rw [hc, if_pos h1]
  · intro h1 h2
    have hm : metricValue cand.metrics key = 0 := by simp [metricValue, h2]
    rw [hc, if_neg h1]
    by_cases hp : prodMetricsTruthy reg = false
    · simp [hp, hm]
    · simp [hp, hm]
  · intro pm h1 hpm hpmne h2
    have hv : productionMetricValue reg key = 0 := by
      simp [productionMetricValue, hpm, metricValue, h2]
    have hp : prodMetricsTruthy reg = true := by
      simp [prodMetricsTruthy, hpm, List.isEmpty_iff, hpmne]
    rw [hc, if_neg h1]
    simp [hp, hv]

/-- C10 witness: the candidate with empty metrics in a registry without a
production model yields `(false, 0, 0)`. -/
theorem C10_compare_models_witness :
    compare_models demoRegEmptyMetrics "v9" "val_accuracy" 0 = (false, 0, 0) :=
  (C10_compare_models_defaults demoRegEmptyMetrics "v9" "val_accuracy" 0
    { status := ModelStatus.EVALUATING, created_at := "t9"
      base_model := none, training_config := []
      metrics := [], path := "c9.pt" }
    (by with_unfolding_all rfl)).1 rfl

/-! ## Claim C7: case-id allocation and release round trip -/

/-- C7: a user with no counter file and no ledger entries is allocated
`10000`; after a successful release of `10000` the next allocation returns
`10000` again. -/
theorem C7_fresh_user_case_id_cycle :
    (nextCaseIdForUser ⟨none, []⟩).1 = "10000" ∧
    (release_case_id (nextCaseIdForUser ⟨none, []⟩).2 "10000").1 =
      ReleaseResult.ok "10000" ∧
    (nextCaseIdForUser (release_case_id (nextCaseIdForUser ⟨none, []⟩).2 "10000").2).1 =
      "10000" := by
  refine ⟨?_, ?_, ?_⟩ <;> with_unfolding_all rfl

/-! ## Claim C8: release_case_id -/

/-- C8: for a numeric requested id, `release_case_id` changes state only
when the id equals the counter and no ledger entry references it — and
then it only lowers the counter (clamped at `CASE_ID_START - 1`) and keeps
the ledger; in every other case it reports `missing_counter`,
`counter_mismatch` or `case_in_use` and leaves the state unchanged. -/
theorem C8_release_case_id_spec (st : UserState) (raw : String)
    (hdigit : pyIsDigit raw.trim = true) :
    ((release_case_id st raw).2 ≠ st →
      ∃ n, st.counter = some n ∧ toString n = raw.trim ∧
        st.ledger.any (fun e => e.case_id == some raw.trim) = false ∧
        (release_case_id st raw).2.ledger = st.ledger ∧
        (release_case_id st raw).2.counter = some (max (n - 1) (CASE_ID_START - 1)) ∧
        (release_case_id st raw).1 = ReleaseResult.ok raw.trim) ∧
    (st.counter = none →
      (release_case_id st raw).1 = ReleaseResult.skipped "missing_counter" none ∧
      (release_case_id st raw).2 = st) ∧
    (∀ n, st.counter = some n → toString n ≠ raw.trim →
      (release_case_id st raw).1 =
        ReleaseResult.skipped "counter_mismatch" (some (toString n)) ∧
      (release_case_id st raw).2 = st) ∧
    (∀ n, st.counter = some n → toString n = raw.trim →
      st.ledger.any (fun e => e.case_id == some raw.trim) = true →
      (release_case_id st raw).1 = ReleaseResult.skipped "case_in_use" none ∧
      (release_case_id st raw).2 = st) := by
  have hnz : ¬ raw.trim = "" := by
    intro h0
    rw [pyIsDigit, h0] at hdigit
    simp at hdigit
  unfold release_case_id
  rw [if_neg (by simp [hnz, hdigit])]
  split
  · rename_i heq
    refine ⟨fun hchange => absurd rfl hchange, fun _ => ⟨rfl, rfl⟩, ?_, ?_⟩
    · intro n hn _
      rw [heq] at hn
      cases hn
    · intro n hn _ _
      rw [heq] at hn
      cases hn
  · rename_i last_id heq
    by_cases hs : toString last_id = raw.trim
    · rw [if_neg (fun hcon => hcon hs)]
      by_cases hin : st.ledger.any (fun e => e.case_id == some raw.trim) = true
      · rw [if_pos hin]
        refine ⟨fun hchange => absurd rfl hchange, ?_, ?_, ?_⟩
        · intro hn
          rw [heq] at hn
          cases hn
        · intro n hn hne
          rw [heq] at hn
          injection hn with hn0
          exact absurd (hn0 ▸ hs) hne
        · intro n hn _ _
          exact ⟨rfl, rfl⟩
      · rw [if_neg hin]
        refine ⟨?_, ?_, ?_, ?_⟩
        · intro _
          exact ⟨last_id, heq, hs, by simpa using hin, rfl, rfl, rfl⟩
        · intro hn
          rw [heq] at hn
          cases hn
        · intro n hn hne
          rw [heq] at hn
          injection hn with hn0
          exact absurd (hn0 ▸ hs) hne
        · intro n hn _ hin2
          exact absurd hin2 hin
    · rw [if_pos hs]
      refine ⟨fun hchange => absurd rfl hchange, ?_, ?_, ?_⟩
      · intro hn
        rw [heq] at hn
        cases hn
      · intro n hn _
        rw [heq] at hn
        injection hn with hn0
        subst hn0
        exact ⟨rfl, rfl⟩
      · intro n hn hs2 _
        rw [heq] at hn
        injection hn with hn0
        exact absurd (hn0 ▸ hs2) hs

/-- C8 witness: with counter 10001 a request to release 10000 reports
`counter_mismatch` and leaves the state unchanged. -/
theorem C8_release_case_id_witness :
    (release_case_id ⟨some 10001, []⟩ "10000").1 =
      ReleaseResult.skipped "counter_mismatch" (some "10001") ∧
    (release_case_id ⟨some 10001, []⟩ "10000").2 = ⟨some 10001, []⟩ :=
  (C8_release_case_id_spec ⟨some 10001, []⟩ "10000"
    (by with_unfolding_all rfl)).2.2.1 10001 rfl
    (of_decide_eq_true (by with_unfolding_all rfl))

/-! ## Claim C9: uncertainty selection -/

/-- C9 (code bug): selection does not return the k cases with the smallest
margins.  On three cases with margins 1/10, 1/5, 1/20 and `top_k = 2` the
code returns the cases with margins 1/20 and 1/5, although the two
smallest margins are 1/20 and 1/10: the eviction test compares against the
min-heap root, i.e. the smallest retained margin, and `heapreplace`
evicts exactly that smallest element. -/
theorem C9_select_uncertain_samples_bug :
    (select_uncertain_samples demoCases 2).map AugCase.margin = [1/20, 1/5] ∧
    (stableSort (fun a b => decide (a ≤ b)) (demoCases.map calculate_case_margin)).take 2 =
      [1/20, 1/10] := by
  refine ⟨?_, ?_⟩ <;> with_unfolding_all rfl

/-! ## Labels-pool lemmas -/

theorem find?_append_none {α : Type} (l1 l2 : List α) (p : α → Bool)
    (h : l1.find? p = none) : (l1 ++ l2).find? p = l2.find? p := by
  induction l1 with
  | nil => simp
  | cons x t ih =>
      cases hx : p x with
      | true => simp [List.find?_cons, hx] at h
      | false =>
          simp only [List.find?_cons, hx] at h
          simp only [List.cons_append, List.find?_cons, hx]
          exact ih h

theorem replaceFirst_append_none {α : Type} (l1 l2 : List α) (p : α → Bool) (x : α)
    (h : ∀ y ∈ l1, p y = false) :
    replaceFirst p x (l1 ++ l2) = l1 ++ replaceFirst p x l2 := by
  induction l1 with
  | nil => simp
  | cons y t ih =>
      have hy : p y = false := h y (List.mem_cons_self _ _)
      simp only [List.cons_append, replaceFirst, hy, Bool.false_eq_true, if_false,
        List.cons.injEq, true_and]
      exact ih (fun z hz => h z (List.mem_cons_of_mem _ hz))

theorem seed_contains (l : List String) :
    ∀ (acc : List (String × List String)) (p : String),
      (p ∈ l ∨ dictContains acc p = true) →
      dictContains (l.foldl (fun acc p => dictSet acc p []) acc) p = true := by
  induction l with
  | nil =>
      intro acc p hp
      rcases hp with hp | hp
      · cases hp
      · simpa using hp
  | cons q t ih =>
      intro acc p hp
      rw [List.foldl_cons]
      rcases hp with hp | hp
      · rcases List.mem_cons.mp hp with hq | hq
        · subst hq
          refine ih _ p (Or.inr ?_)
          rw [dictContains_dictSet]
          simp
        · exact ih _ p (Or.inl hq)
      · refine ih _ p (Or.inr ?_)
        rw [dictContains_dictSet, hp]
        simp

theorem foldNorm_id (l : List String) :
    ∀ (h : List (String × List String)),
      (∀ p ∈ l, dictContains h p = true) →
      l.foldl (fun acc p => if dictContains acc p then acc else acc ++ [(p, [])]) h = h := by
  induction l with
  | nil => intro h _; rfl
  | cons q t ih =>
      intro h hall
      rw [List.foldl_cons, if_pos (by simpa using hall q (List.mem_cons_self _ _))]
      exact ih h (fun p hp => hall p (List.mem_cons_of_mem _ hp))

theorem dictSet_of_dictGet {α : Type} (m : List (String × α)) (k : String) (v : α)
    (h : dictGet m k = some v) : dictSet m k v = m := by
  induction m with
  | nil => simp [dictGet] at h
  | cons q t ih =>
      obtain ⟨k0, v0⟩ := q
      by_cases hk : k0 = k
      · subst hk
        have : v0 = v := by
          simpa [dictGet, List.find?_cons] using h
        simp [dictSet, this]
      · have hb : (k0 == k) = false := beq_eq_false_iff_ne.mpr hk
        rw [dictGet, List.find?_cons] at h
        simp only [hb] at h
        simp only [dictSet, hb, Bool.false_eq_true, if_false, List.cons.injEq, true_and]
        exact ih (by simpa [dictGet] using h)

theorem add_label_fresh (pool : List LabelRecord) (c : String) (paths : List String)
    (L u t : String) (hfind : pool.find? (fun l => l.case_id == c) = none) :
    add_label pool c paths L u t =
      (freshLabel c paths L u t, pool ++ [freshLabel c paths L u t]) := by
  unfold add_label
  rw [hfind]
  rfl

theorem add_label_existing (pool : List LabelRecord) (c : String) (paths : List String)
    (L u t : String) (old : LabelRecord)
    (hfind : pool.find? (fun l => l.case_id == c) = some old) :
    add_label pool c paths L u t =
      (updatedLabel c paths L u t old,
       replaceFirst (fun l => l.case_id == c) (updatedLabel c paths L u t old) pool) := by
  unfold add_label
  rw [hfind]
  rfl

/-! ## Claim C5: latest-wins add_label -/

/-- C5: two successive `add_label` calls for a case id previously absent
from the pool leave exactly one record for it, carrying the second
submission's label, user and image paths with `updated_at` from the second
write, while `created_at`, `used_in_models` and the per-image retrain
history are preserved from the first write. -/
theorem C5_add_label_latest_wins (pool : List LabelRecord) (c : String)
    (paths paths2 : List String) (L L2 u1 u2 t1 t2 : String)
    (hfresh : ∀ l ∈ pool, (l.case_id == c) = false) :
    (((add_label (add_label pool c paths L u1 t1).2 c paths2 L2 u2 t2).2.filter
        (fun l => l.case_id == c)).length = 1) ∧
    get_label_by_case (add_label (add_label pool c paths L u1 t1).2 c paths2 L2 u2 t2).2 c =
      some (add_label (add_label pool c paths L u1 t1).2 c paths2 L2 u2 t2).1 ∧
    (add_label (add_label pool c paths L u1 t1).2 c paths2 L2 u2 t2).1.correct_label = L2 ∧
    (add_label (add_label pool c paths L u1 t1).2 c paths2 L2 u2 t2).1.user_id = u2 ∧
    (add_label (add_label pool c paths L u1 t1).2 c paths2 L2 u2 t2).1.image_paths = paths2 ∧
    (add_label (add_label pool c paths L u1 t1).2 c paths2 L2 u2 t2).1.updated_at = t2 ∧
    (add_label (add_label pool c paths L u1 t1).2 c paths2 L2 u2 t2).1.created_at =
      (add_label pool c paths L u1 t1).1.created_at ∧
    (add_label (add_label pool c paths L u1 t1).2 c paths2 L2 u2 t2).1.used_in_models =
      (add_label pool c paths L u1 t1).1.used_in_models ∧
    (add_label (add_label pool c paths L u1 t1).2 c paths2 L2 u2 t2).1.image_retrain_history =
      (add_label pool c paths L u1 t1).1.image_retrain_history := by
  have hfind : pool.find? (fun l => l.case_id == c) = none :=
    List.find?_eq_none.mpr (fun x hx => by simp [hfresh x hx])
  have h1 := add_label_fresh pool c paths L u1 t1 hfind
  have hfind1 : (pool ++ [freshLabel c paths L u1 t1]).find? (fun l => l.case_id == c) =
      some (freshLabel c paths L u1 t1) := by
    rw [find?_append_none _ _ _ hfind]
    simp [List.find?_cons, freshLabel]
  have h2 := add_label_existing (pool ++ [freshLabel c paths L u1 t1]) c paths2 L2 u2 t2 _
    hfind1
  have hnorm : normalizeImageRetrainHistory (freshLabel c paths L u1 t1) =
      (freshLabel c paths L u1 t1).image_retrain_history := by
    unfold normalizeImageRetrainHistory
    apply foldNorm_id
    intro p hp
    simp only [freshLabel] at hp ⊢
    exact seed_contains paths [] p (Or.inl hp)
  have hrepl : replaceFirst (fun l => l.case_id == c)
      (updatedLabel c paths2 L2 u2 t2 (freshLabel c paths L u1 t1))
      (pool ++ [freshLabel c paths L u1 t1]) =
      pool ++ [updatedLabel c paths2 L2 u2 t2 (freshLabel c paths L u1 t1)] := by
    rw [replaceFirst_append_none _ _ _ _ hfresh]
    simp [replaceFirst, freshLabel]
  rw [h1]
  simp only []
  rw [h2, hrepl]
  simp only []
  refine ⟨?_, ?_, ?_, ?_, ?_, ?_, ?_, ?_, ?_⟩
  · rw [List.filter_append]
    rw [List.filter_eq_nil_iff.mpr (fun x hx => by simp [hfresh x hx])]
    simp [updatedLabel]
  · unfold get_label_by_case
    rw [find?_append_none _ _ _ hfind]
    simp [List.find?_cons, updatedLabel]
  · rfl
  · rfl
  · rfl
  · rfl
  · rfl
  · rfl
  · exact hnorm

/-! ## mark_labels_used lemmas -/

theorem foldMark_cons (vid : String) (acc : List (String × List String))
    (q : String) (t : List String) :
    foldMark vid acc (q :: t) = foldMark vid (markStep vid acc q) t := rfl

theorem dictGet_markStep_other (vid : String) (acc : List (String × List String))
    (p p' : String) (hne : p' ≠ p) :
    dictGet (markStep vid acc p) p' = dictGet acc p' :=
  dictGet_dictSet_ne _ _ _ _ hne

theorem dictGet_markStep_self (vid : String) (acc : List (String × List String))
    (p : String) :
    ∃ cur, dictGet (markStep vid acc p) p = some cur ∧ cur.contains vid = true := by
  refine ⟨_, dictGet_dictSet_self _ _ _, ?_⟩
  by_cases hc : ((dictGet acc p).getD []).contains vid = true
  · rw [if_pos hc]
    exact hc
  · rw [if_neg hc]
    simp

theorem foldMark_get_other (vid : String) (l : List String) :
    ∀ (acc : List (String × List String)) (p : String), p ∉ l →
      dictGet (foldMark vid acc l) p = dictGet acc p := by
  induction l with
  | nil => intro acc p _; rfl
  | cons q t ih =>
      intro acc p hp
      have hpq : p ≠ q := fun h => hp (h ▸ List.mem_cons_self _ _)
      have hpt : p ∉ t := fun h => hp (List.mem_cons_of_mem _ h)
      rw [foldMark_cons, ih _ p hpt, dictGet_markStep_other vid acc q p hpq]

theorem foldMark_get_mem (vid : String) (l : List String) :
    ∀ (acc : List (String × List String)) (p : String), p ∈ l →
      ∃ cur, dictGet (foldMark vid acc l) p = some cur ∧ cur.contains vid = true := by
  induction l with
  | nil => intro acc p hp; cases hp
  | cons q t ih =>
      intro acc p hp
      rw [foldMark_cons]
      by_cases hpt : p ∈ t
      · exact ih _ p hpt
      · have hpq : p = q := by
          rcases List.mem_cons.mp hp with h | h
          · exact h
          · exact absurd h hpt
        subst hpq
        rw [foldMark_get_other vid t _ p hpt]
        exact dictGet_markStep_self vid acc p

theorem foldMark_id (vid : String) (l : List String) :
    ∀ acc : List (String × List String),
      (∀ p ∈ l, ∃ cur, dictGet acc p = some cur ∧ cur.contains vid = true) →
      foldMark vid acc l = acc := by
  induction l with
  | nil => intro acc _; rfl
  | cons q t ih =>
      intro acc hall
      obtain ⟨cur, hg, hc⟩ := hall q (List.mem_cons_self _ _)
      have hstep : markStep vid acc q = acc := by
        unfold markStep
        rw [hg]
        simp only [Option.getD_some, hc, if_true]
        exact dictSet_of_dictGet _ _ _ hg
      rw [foldMark_cons, hstep]
      exact ih acc (fun p hp => hall p (List.mem_cons_of_mem _ hp))

theorem markRecordUsed_case_id (vid : String) (rec : LabelRecord) :
    (markRecordUsed vid rec).case_id = rec.case_id := rfl

theorem markRecordUsed_used_contains (vid : String) (rec : LabelRecord) :
    (markRecordUsed vid rec).used_in_models.contains vid = true := by
  unfold markRecordUsed
  by_cases hc : rec.used_in_models.contains vid = true
  · rw [if_pos hc]
    exact hc
  · rw [if_neg hc]
    simp

theorem normalize_markRecordUsed (vid : String) (rec : LabelRecord) :
    normalizeImageRetrainHistory (markRecordUsed vid rec) =
      (markRecordUsed vid rec).image_retrain_history := by
  unfold normalizeImageRetrainHistory
  apply foldNorm_id
  intro p hp
  have hp2 : p ∈ rec.image_paths := hp
  obtain ⟨cur, hg, _⟩ := foldMark_get_mem vid rec.image_paths
    (normalizeImageRetrainHistory rec) p hp2
  simp [dictContains, markRecordUsed, hg]

theorem markRecordUsed_idem (vid : String) (rec : LabelRecord) :
    markRecordUsed vid (markRecordUsed vid rec) = markRecordUsed vid rec := by
  have hused := markRecordUsed_used_contains vid rec
  have hhist : ∀ p ∈ (markRecordUsed vid rec).image_paths,
      ∃ cur, dictGet (markRecordUsed vid rec).image_retrain_history p = some cur ∧
        cur.contains vid = true := by
    intro p hp
    exact foldMark_get_mem vid rec.image_paths (normalizeImageRetrainHistory rec) p hp
  conv_lhs => rw [markRecordUsed]
  rw [if_pos hused, normalize_markRecordUsed vid rec]
  rw [foldMark_id vid (markRecordUsed vid rec).image_paths
    (markRecordUsed vid rec).image_retrain_history hhist]

theorem find?_map_caseId (g : LabelRecord → LabelRecord)
    (hg : ∀ x, (g x).case_id = x.case_id) (l : List LabelRecord) (c : String) :
    (l.map g).find? (fun r => r.case_id == c) =
      (l.find? (fun r => r.case_id == c)).map g := by
  induction l with
  | nil => rfl
  | cons x t ih =>
      simp only [List.map_cons, List.find?_cons, hg x]
      cases hx : (x.case_id == c) with
      | true => rfl
      | false => exact ih

theorem mark_pool_eq (pool : List LabelRecord) (vid c : String) :
    (mark_labels_used pool vid (some [c])).1 = pool.map (markPoolFn vid c) := rfl

theorem markPoolFn_case_id (vid c : String) (x : LabelRecord) :
    (markPoolFn vid c x).case_id = x.case_id := by
  unfold markPoolFn
  by_cases hm : [c].contains x.case_id = true
  · rw [if_pos hm, markRecordUsed_case_id]
  · rw [if_neg hm]

/-! ## Claim C6: mark_labels_used -/

/-- C6: after `mark_labels_used(v, [c])` the record of case c carries v in
`used_in_models` (appended only when absent) and v in the per-image retrain
history of each of its image paths; a second identical call leaves the
whole pool unchanged. -/
theorem C6_mark_labels_used_spec (pool : List LabelRecord) (vid c : String)
    (r : LabelRecord) (h : get_label_by_case pool c = some r) :
    ∃ r1, get_label_by_case (mark_labels_used pool vid (some [c])).1 c = some r1 ∧
      r1.used_in_models.contains vid = true ∧
      r1.used_in_models = (if r.used_in_models.contains vid then r.used_in_models
        else r.used_in_models ++ [vid]) ∧
      r1.image_paths = r.image_paths ∧
      (∀ p ∈ r.image_paths,
        ((dictGet r1.image_retrain_history p).getD []).contains vid = true) ∧
      (mark_labels_used (mark_labels_used pool vid (some [c])).1 vid (some [c])).1 =
        (mark_labels_used pool vid (some [c])).1 := by
  have hfind : pool.find? (fun l => l.case_id == c) = some r := h
  have hmatch : ([c].contains r.case_id) = true := by
    have hp := List.find?_some hfind
    simp only [List.contains_cons, List.contains_nil, Bool.or_false]
    exact hp
  refine ⟨markRecordUsed vid r, ?_, markRecordUsed_used_contains vid r, rfl, rfl, ?_, ?_⟩
  · show get_label_by_case (pool.map (markPoolFn vid c)) c = some (markRecordUsed vid r)
    unfold get_label_by_case
    rw [find?_map_caseId (markPoolFn vid c) (markPoolFn_case_id vid c) pool c, hfind]
    simp only [Option.map_some']
    unfold markPoolFn
    rw [if_pos hmatch]
  · intro p hp
    have hhist : (markRecordUsed vid r).image_retrain_history =
        foldMark vid (normalizeImageRetrainHistory r) r.image_paths := rfl
    obtain ⟨cur, hg, hc⟩ :=
      foldMark_get_mem vid r.image_paths (normalizeImageRetrainHistory r) p hp
    rw [hhist, hg]
    simpa using hc
  · rw [mark_pool_eq, mark_pool_eq, List.map_map]
    apply List.map_congr_left
    intro a _
    show markPoolFn vid c (markPoolFn vid c a) = markPoolFn vid c a
    by_cases hm : [c].contains a.case_id = true
    · have h1 : markPoolFn vid c a = markRecordUsed vid a := by
        unfold markPoolFn
        rw [if_pos hm]
      rw [h1]
      unfold markPoolFn
      rw [markRecordUsed_case_id, if_pos hm]
      exact markRecordUsed_idem vid a
    · have h1 : markPoolFn vid c a = a := by
        unfold markPoolFn
        rw [if_neg hm]
      rw [h1, h1]

/-- C6 witness: marking the concrete one-record pool twice with the same
version and case id gives the same pool as marking it once. -/
theorem C6_mark_labels_used_witness :
    (mark_labels_used (mark_labels_used [demoLabel] "v1" (some ["10001"])).1 "v1"
      (some ["10001"])).1 = (mark_labels_used [demoLabel] "v1" (some ["10001"])).1 := by
  obtain ⟨r1, _, _, _, _, _, hidem⟩ :=
    C6_mark_labels_used_spec [demoLabel] "v1" "10001" demoLabel (by rfl)
  exact hidem

/-- C5 witness: two concrete submissions for a fresh case id leave one
record with the second label and the first creation timestamp. -/
theorem C5_add_label_witness :
    get_label_by_case (add_label (add_label [] "10001" ["a.jpg"] "mel" "u1" "t1").2
      "10001" ["b.jpg"] "nv" "u2" "t2").2 "10001" =
      some (add_label (add_label [] "10001" ["a.jpg"] "mel" "u1" "t1").2
        "10001" ["b.jpg"] "nv" "u2" "t2").1 ∧
    (add_label (add_label [] "10001" ["a.jpg"] "mel" "u1" "t1").2
      "10001" ["b.jpg"] "nv" "u2" "t2").1.correct_label = "nv" ∧
    (add_label (add_label [] "10001" ["a.jpg"] "mel" "u1" "t1").2
      "10001" ["b.jpg"] "nv" "u2" "t2").1.created_at =
      (add_label [] "10001" ["a.jpg"] "mel" "u1" "t1").1.created_at := by
  have h := C5_add_label_latest_wins [] "10001" ["a.jpg"] ["b.jpg"] "mel" "nv"
    "u1" "u2" "t1" "t2" (fun l hl => absurd hl (List.not_mem_nil l))
  exact ⟨h.2.1, h.2.2.1, h.2.2.2.2.2.2.1⟩

/-! ## Ledger upsert lemmas -/

theorem countSummaries_cons (c : String) (e : CaseEntry) (l : List CaseEntry) :
    countSummaries c (e :: l) =
      (if summaryFor c e = true then 1 else 0) + countSummaries c l := by
  unfold countSummaries
  rw [List.filter_cons]
  by_cases h : summaryFor c e = true
  · rw [if_pos h, if_pos h, List.length_cons]
    omega
  · rw [if_neg h, if_neg h]
    omega

theorem countSummaries_append (c : String) (l1 l2 : List CaseEntry) :
    countSummaries c (l1 ++ l2) = countSummaries c l1 + countSummaries c l2 := by
  unfold countSummaries
  rw [List.filter_append, List.length_append]

theorem summaryFor_apply (c : String) (e ne : CaseEntry) :
    summaryFor c (applyCaseSummaryToImage e ne) = summaryFor c e := rfl

theorem upsertPass_count_self (c : String) (ne : CaseEntry) :
    ∀ l, countSummaries c (upsertPass c ne l) = 0 := by
  intro l
  induction l with
  | nil => rfl
  | cons e t ih =>
      unfold upsertPass
      by_cases h1 : (e.case_id == some c) = true
      · rw [if_pos h1]
        by_cases h2 : isSummaryType e.entry_type = true
        · rw [if_pos h2]
          exact ih
        · rw [if_neg h2]
          have hnot : summaryFor c e = false := by
            unfold summaryFor
            rw [Bool.eq_false_iff.mpr h2]
            simp
          by_cases h3 : optTruthy e.image_id = true
          · rw [if_pos h3, countSummaries_cons, summaryFor_apply, hnot]
            simpa using ih
          · rw [if_neg h3, countSummaries_cons, hnot]
            simpa using ih
      · rw [if_neg h1]
        have hnot : summaryFor c e = false := by
          unfold summaryFor
          rw [Bool.eq_false_iff.mpr h1]
          simp
        rw [countSummaries_cons, hnot]
        simpa using ih

theorem upsertPass_count_other (c c' : String) (hne : c' ≠ c) (ne : CaseEntry) :
    ∀ l, countSummaries c' (upsertPass c ne l) = countSummaries c' l := by
  intro l
  induction l with
  | nil => rfl
  | cons e t ih =>
      unfold upsertPass
      by_cases h1 : (e.case_id == some c) = true
      · have hid : e.case_id = some c := by simpa using h1
        have hnot : summaryFor c' e = false := by
          unfold summaryFor
          rw [hid]
          have hb : ((some c : Option String) == some c') = false := by
            rw [beq_eq_false_iff_ne]
            intro hcc
            exact hne (Option.some.inj hcc).symm
          rw [hb]
          simp
        rw [if_pos h1]
        by_cases h2 : isSummaryType e.entry_type = true
        · rw [if_pos h2, ih, countSummaries_cons, hnot]
          simp
        · rw [if_neg h2]
          by_cases h3 : optTruthy e.image_id = true
          · rw [if_pos h3, countSummaries_cons, summaryFor_apply, hnot,
              countSummaries_cons, hnot, ih]
          · rw [if_neg h3, countSummaries_cons, hnot, countSummaries_cons, hnot, ih]
      · rw [if_neg h1, countSummaries_cons, countSummaries_cons, ih]

theorem upsertPass_image_rewritten (c : String) (ne : CaseEntry) :
    ∀ l, ∀ e' ∈ upsertPass c ne l,
      e'.case_id = some c → optTruthy e'.image_id = true →
      e'.case_status = ne.status ∧ e'.case_entry_type = ne.entry_type ∧
      e'.case_updated_at = ne.created_at := by
  intro l
  induction l with
  | nil => intro e' he'; cases he'
  | cons e t ih =>
      unfold upsertPass
      by_cases h1 : (e.case_id == some c) = true
      · rw [if_pos h1]
        by_cases h2 : isSummaryType e.entry_type = true
        · rw [if_pos h2]
          exact ih
        · rw [if_neg h2]
          by_cases h3 : optTruthy e.image_id = true
          · rw [if_pos h3]
            intro e' he' hid himg
            rcases List.mem_cons.mp he' with h | h
            · subst h
              exact ⟨rfl, rfl, rfl⟩
            · exact ih e' h hid himg
          · rw [if_neg h3]
            intro e' he' hid himg
            rcases List.mem_cons.mp he' with h | h
            · subst h
              exact absurd himg h3
            · exact ih e' h hid himg
      · rw [if_neg h1]
        intro e' he' hid himg
        rcases List.mem_cons.mp he' with h | h
        · subst h
          exact absurd (by simp [hid]) h1
        · exact ih e' h hid himg

theorem allocCaseId_ledger (st : UserState) (payload : CaseEntry) :
    (allocCaseId st payload).2.ledger = st.ledger := by
  unfold allocCaseId
  split
  · rfl
  · split
    · rfl
    · rfl

theorem logCaseEntry_ledger (st : UserState) (payload : CaseEntry)
    (et ds uid ur now : String) :
    (logCaseEntry st payload et ds uid ur now).2.ledger =
      upsertPass (allocCaseId st payload).1
        (summaryEntry payload (allocCaseId st payload).1 et ds uid ur now)
        (allocCaseId st payload).2.ledger
      ++ [(logCaseEntry st payload et ds uid ur now).1] := by
  simp only [logCaseEntry]

theorem logCaseEntry_fields (st : UserState) (payload : CaseEntry)
    (et ds uid ur now : String) :
    (logCaseEntry st payload et ds uid ur now).1.case_id =
      some (allocCaseId st payload).1 ∧
    (logCaseEntry st payload et ds uid ur now).1.entry_type = some et ∧
    (logCaseEntry st payload et ds uid ur now).1.status =
      (summaryEntry payload (allocCaseId st payload).1 et ds uid ur now).status ∧
    (logCaseEntry st payload et ds uid ur now).1.created_at =
      (summaryEntry payload (allocCaseId st payload).1 et ds uid ur now).created_at := by
  simp only [logCaseEntry]
  split <;> exact ⟨rfl, rfl, rfl, rfl⟩

theorem logCaseEntry_count_self (st : UserState) (payload : CaseEntry)
    (et ds uid ur now : String) (het : isSummaryType (some et) = true) :
    countSummaries (allocCaseId st payload).1
      (logCaseEntry st payload et ds uid ur now).2.ledger = 1 := by
  obtain ⟨hcid, hetype, _, _⟩ := logCaseEntry_fields st payload et ds uid ur now
  rw [logCaseEntry_ledger, countSummaries_append, upsertPass_count_self]
  have hsum : summaryFor (allocCaseId st payload).1
      (logCaseEntry st payload et ds uid ur now).1 = true := by
    unfold summaryFor
    rw [hcid, hetype, het]
    simp
  rw [countSummaries_cons, hsum]
  rfl

theorem logCaseEntry_count_other (st : UserState) (payload : CaseEntry)
    (et ds uid ur now : String) (c' : String)
    (hne : c' ≠ (allocCaseId st payload).1) :
    countSummaries c' (logCaseEntry st payload et ds uid ur now).2.ledger =
      countSummaries c' st.ledger := by
  obtain ⟨hcid, _, _, _⟩ := logCaseEntry_fields st payload et ds uid ur now
  rw [logCaseEntry_ledger, countSummaries_append,
    upsertPass_count_other _ _ hne, allocCaseId_ledger]
  have hsum : summaryFor c' (logCaseEntry st payload et ds uid ur now).1 = false := by
    unfold summaryFor
    rw [hcid]
    have hb : ((some (allocCaseId st payload).1 : Option String) == some c') = false := by
      rw [beq_eq_false_iff_ne]
      intro hcc
      exact hne (Option.some.inj hcc).symm
    rw [hb]
    simp
  rw [countSummaries_cons, hsum]
  simp [countSummaries]

theorem runUpserts_le_one (uid : String) :
    ∀ ops : List UpsertOp, (∀ op ∈ ops, isSummaryType (some op.entry_type) = true) →
    ∀ st : UserState, (∀ c, countSummaries c st.ledger ≤ 1) →
      ∀ c, countSummaries c (runUpserts uid st ops).ledger ≤ 1 := by
  intro ops
  induction ops with
  | nil =>
      intro _ st h c
      simpa [runUpserts] using h c
  | cons op ops ih =>
      intro hall st h c
      have hop := hall op (List.mem_cons_self _ _)
      have hstep : ∀ c0, countSummaries c0
          (logCaseEntry st op.payload op.entry_type op.default_status uid op.user_role
            op.now).2.ledger ≤ 1 := by
        intro c0
        by_cases hc : c0 = (allocCaseId st op.payload).1
        · subst hc
          rw [logCaseEntry_count_self st op.payload op.entry_type op.default_status uid
            op.user_role op.now hop]
        · rw [logCaseEntry_count_other st op.payload op.entry_type op.default_status uid
            op.user_role op.now c0 hc]
          exact h c0
      have hrec := ih (fun o ho => hall o (List.mem_cons_of_mem _ ho)) _ hstep c
      simpa [runUpserts, List.foldl_cons] using hrec

/-! ## Claim C4: at most one summary entry per case -/

/-- C4: starting from an empty ledger, any sequence of summary upserts
(close, uncertain or reject posts) leaves at most one summary entry per
case id; each single upsert leaves exactly one summary for its case,
leaves the summary counts of every other case unchanged, and rewrites the
ledger to a prefix free of summaries of that case — in which every image
entry of the case carries the new summary's status, entry type and
timestamp — followed by exactly the one new summary entry. -/
theorem C4_at_most_one_summary (uid : String) :
    (∀ (counter : Option Int) (ops : List UpsertOp),
      (∀ op ∈ ops, isSummaryType (some op.entry_type) = true) →
      ∀ c, countSummaries c (runUpserts uid ⟨counter, []⟩ ops).ledger ≤ 1) ∧
    (∀ (st : UserState) (payload : CaseEntry) (et ds ur now : String),
      isSummaryType (some et) = true →
      countSummaries (allocCaseId st payload).1
        (logCaseEntry st payload et ds uid ur now).2.ledger = 1 ∧
      (∀ c', c' ≠ (allocCaseId st payload).1 →
        countSummaries c' (logCaseEntry st payload et ds uid ur now).2.ledger =
          countSummaries c' st.ledger) ∧
      ∃ pre, (logCaseEntry st payload et ds uid ur now).2.ledger =
          pre ++ [(logCaseEntry st payload et ds uid ur now).1] ∧
        countSummaries (allocCaseId st payload).1 pre = 0 ∧
        ∀ e' ∈ pre, e'.case_id = some (allocCaseId st payload).1 →
          optTruthy e'.image_id = true →
          e'.case_status = (logCaseEntry st payload et ds uid ur now).1.status ∧
          e'.case_entry_type = some et ∧
          e'.case_updated_at = (logCaseEntry st payload et ds uid ur now).1.created_at) := by
  constructor
  · intro counter ops hall c
    exact runUpserts_le_one uid ops hall ⟨counter, []⟩
      (fun c0 => by simp [countSummaries]) c
  · intro st payload et ds ur now het
    obtain ⟨hcid, hetype, hstat, hcreat⟩ := logCaseEntry_fields st payload et ds uid ur now
    refine ⟨logCaseEntry_count_self st payload et ds uid ur now het,
      fun c' hc' => logCaseEntry_count_other st payload et ds uid ur now c' hc', ?_⟩
    refine ⟨upsertPass (allocCaseId st payload).1
      (summaryEntry payload (allocCaseId st payload).1 et ds uid ur now)
      (allocCaseId st payload).2.ledger,
      logCaseEntry_ledger st payload et ds uid ur now, ?_, ?_⟩
    · exact upsertPass_count_self _ _ _
    · intro e' he' hid himg
      have h3 := upsertPass_image_rewritten (allocCaseId st payload).1
        (summaryEntry payload (allocCaseId st payload).1 et ds uid ur now) _ e' he' hid himg
      refine ⟨?_, ?_, ?_⟩
      · rw [h3.1, hstat]
      · rw [h3.2.1]
        rfl
      · rw [h3.2.2, hcreat]

/-- C4 witness: the concrete close-then-reject sequence for case 10000
leaves at most one summary entry for it. -/
theorem C4_at_most_one_summary_witness :
    (∀ op ∈ demoUpserts, isSummaryType (some op.entry_type) = true) ∧
    countSummaries "10000" (runUpserts "alice" ⟨none, []⟩ demoUpserts).ledger ≤ 1 :=
  ⟨of_decide_eq_true (by with_unfolding_all rfl),
   (C4_at_most_one_summary "alice").1 none demoUpserts
     (of_decide_eq_true (by with_unfolding_all rfl)) "10000"⟩

end AllCare
